import Mathlib

/-!
Verification development for the virtual file descriptor (VFD) cache of
`src/cdb-pg/src/backend/storage/file/fd.c`.

The C module is shallowly embedded: the VFD slot array becomes a `List Vfd`,
machine integers become `Int`/`Nat`, syscalls and calls into the external DFS
(HDFS) client library become explicit oracle arguments carrying the result the
environment would return, and `elog(ERROR)`/`Insist` non-local exits become
`Except` values carrying the state at the moment the error was raised.
-/

/-- The bits of the `open(2)` flag word that fd.c manipulates
(`O_WRONLY`, `O_RDWR`, `O_CREAT`, `O_TRUNC`, `O_EXCL`, `O_APPEND`).
The bits are independent, so the flag word is modelled as a structure of
`Bool`s; bit-masking in the C code becomes field updates. -/
structure OFlags where
  wronly : Bool := false
  rdwr : Bool := false
  creat : Bool := false
  trunc : Bool := false
  excl : Bool := false
  append : Bool := false
deriving Repr, DecidableEq

/-- The `fdstate` bitmask of a VFD slot: `FD_TEMPORARY` (bit 0) and
`FD_CLOSE_AT_EOXACT` (bit 1), from fd.c lines 133-134. -/
structure FdStateBits where
  temporary : Bool := false
  closeAtEOXact : Bool := false
deriving Repr, DecidableEq

/-- One VFD slot (`typedef struct vfd`, fd.c lines 136-152).
`fd = -1` models `VFD_CLOSED`; the HDFS handles `hFS`/`hFile` are modelled by
whether they are non-NULL; `fileName = none` models a NULL (unused) name. -/
structure Vfd where
  fd : Int := -1
  fdstate : FdStateBits := {}
  create_subid : Nat := 0
  nextFree : Nat := 0
  lruMoreRecently : Nat := 0
  lruLessRecently : Nat := 0
  seekPos : Int := 0
  fileName : Option String := none
  fileFlags : OFlags := {}
  fileMode : Nat := 0
  hFS : Bool := false
  hFile : Bool := false
  hProtocol : Option String := none
deriving Repr, DecidableEq

/-- `FileUnknownPos` (fd.c line 130): the sentinel stored in `seekPos` after a
failed I/O operation. -/
def FileUnknownPos : Int := -1

/-- The mutable module state used by the table-level operations: the VFD array
`VfdCache` (index 0 is the sentinel/list header) and the counter `nfile` of
file descriptors known to be in use by VFD entries.  `nfile` is a C `int` that
the modelled operations only decrement when positive, so it is carried as a
`Nat`. -/
structure FdSt where
  cache : List Vfd
  nfile : Nat
deriving Repr, DecidableEq

/-- Read `VfdCache[i]`; out-of-range reads (which the C code never performs on
the paths modelled here) return the zeroed slot. -/
def getVfd (st : FdSt) (i : Nat) : Vfd := (st.cache.getD i {})

/-- Write `VfdCache[i]`. -/
def setVfd (st : FdSt) (i : Nat) (v : Vfd) : FdSt :=
  { st with cache := st.cache.set i v }

/-- Update `VfdCache[i]` in place. -/
def updVfd (st : FdSt) (i : Nat) (f : Vfd → Vfd) : FdSt :=
  setVfd st i (f (getVfd st i))

/-- `FileIsNotOpen(file)` (fd.c lines 127-128): the slot holds no kernel
descriptor and no DFS handles. -/
def FileIsNotOpen (st : FdSt) (i : Nat) : Bool :=
  (getVfd st i).fd == -1 && !(getVfd st i).hFS && !(getVfd st i).hFile

/-- `IsLocalFile(file)` (fd.c lines 2307-2314): a slot is local exactly when
both DFS handles are NULL. -/
def IsLocalFile (v : Vfd) : Bool := !v.hFS && !v.hFile

/-- The state after `InitFileAccess` (fd.c lines 355-374): a single zeroed
header slot with `fd = VFD_CLOSED`, and no open files. -/
def initFileAccessSt : FdSt := { cache := [{ fd := -1 }], nfile := 0 }

/-! ### Basic slot-access lemmas -/

theorem length_setVfd (st : FdSt) (i : Nat) (v : Vfd) :
    (setVfd st i v).cache.length = st.cache.length := by
  simp [setVfd]

theorem length_updVfd (st : FdSt) (i : Nat) (f : Vfd → Vfd) :
    (updVfd st i f).cache.length = st.cache.length := by
  simp [updVfd, setVfd]

theorem nfile_setVfd (st : FdSt) (i : Nat) (v : Vfd) :
    (setVfd st i v).nfile = st.nfile := rfl

theorem getVfd_setVfd_self (st : FdSt) (i : Nat) (v : Vfd)
    (h : i < st.cache.length) : getVfd (setVfd st i v) i = v := by
  simp [getVfd, setVfd, List.getD, List.getElem?_set_self, h]

theorem getVfd_setVfd_ne (st : FdSt) (i j : Nat) (v : Vfd) (h : i ≠ j) :
    getVfd (setVfd st i v) j = getVfd st j := by
  simp [getVfd, setVfd, List.getD, List.getElem?_set_ne h]

theorem getVfd_updVfd_self (st : FdSt) (i : Nat) (f : Vfd → Vfd)
    (h : i < st.cache.length) : getVfd (updVfd st i f) i = f (getVfd st i) :=
  getVfd_setVfd_self st i _ h

theorem getVfd_updVfd_ne (st : FdSt) (i j : Nat) (f : Vfd → Vfd) (h : i ≠ j) :
    getVfd (updVfd st i f) j = getVfd st j :=
  getVfd_setVfd_ne st i j _ h

/-! ### FD budget probe (`count_usable_fds`, `set_max_safe_fds`, fd.c 388-486) -/

/-- `NUM_RESERVED_FDS` (fd.c line 84). -/
def NUM_RESERVED_FDS : Int := 10

/-- `FD_MINFREE` (fd.c line 90). -/
def FD_MINFREE : Int := 10

/-- `MAX_ALLOCATED_DESCS` (fd.c line 175). -/
def MAX_ALLOCATED_DESCS : Nat := 32

/-- The `for (;;)` probe loop of `count_usable_fds` (fd.c lines 401-428).
`dups i` is the result of the `i`-th call to `dup(0)` (`none` = failure,
`some fd` = the descriptor returned).  Returns `(used, highestfd)`.  The loop
breaks after a successful dup once `used ≥ max_to_probe`, so at most
`maxToProbe` successful iterations occur and any fuel above that bound is
never exhausted when it matters; callers pass `maxToProbe + 1`. -/
def countUsableGo (dups : Nat → Option Nat) (maxToProbe : Nat) :
    Nat → Nat → Nat → Nat × Nat
  | 0, used, highest => (used, highest)
  | fuel + 1, used, highest =>
    match dups used with
    | none => (used, highest)
    | some thisfd =>
      let used1 := used + 1
      let highest1 := max highest thisfd
      if maxToProbe ≤ used1 then (used1, highest1)
      else countUsableGo dups maxToProbe fuel used1 highest1

/-- `count_usable_fds(max_to_probe, &usable_fds, &already_open)`
(fd.c lines 388-443): `usable_fds` is the number of successful dups and
`already_open = highestfd + 1 - usable_fds` (computed in C `int` arithmetic,
hence `Int` here; `highestfd` starts at 0). -/
def count_usable_fds (dups : Nat → Option Nat) (maxToProbe : Nat) : Nat × Int :=
  let p := countUsableGo dups maxToProbe (maxToProbe + 1) 0 0
  (p.1, (p.2 : Int) + 1 - (p.1 : Int))

/-- `set_max_safe_fds` (fd.c lines 449-486): probe with
`max_to_probe = max_files_per_process`, set
`max_safe_fds = Min(usable_fds, max_files_per_process - already_open) -
NUM_RESERVED_FDS`, and raise the insufficient-resources FATAL
(modelled as `.error ()`) when the result is below `FD_MINFREE`. -/
def set_max_safe_fds_model (dups : Nat → Option Nat)
    (max_files_per_process : Nat) : Except Unit Int :=
  let p := count_usable_fds dups max_files_per_process
  let m : Int :=
    min (p.1 : Int) ((max_files_per_process : Int) - p.2) - NUM_RESERVED_FDS
  if m < FD_MINFREE then .error () else .ok m

/-! ### Seek-position accounting of the local read/write paths -/

/-- The post-`FileAccess` core of `FileReadIntr` (fd.c lines 1185-1221):
`ret` is the final result of the (possibly `EINTR`-retried) `read(2)`.
On `ret ≥ 0` the logical position advances by `ret`; otherwise it becomes
`FileUnknownPos`. -/
def LocalFileReadCore (v : Vfd) (ret : Int) : Int × Vfd :=
  if 0 ≤ ret then (ret, { v with seekPos := v.seekPos + ret })
  else (ret, { v with seekPos := FileUnknownPos })

/-- The post-`FileAccess` core of `LocalFileWrite` (fd.c lines 1298-1344):
`ret` is the final result of the (possibly retried) `write(2)`.  The
short-write `ENOSPC` synthesis only touches `errno`; the seek accounting is
identical to the read path. -/
def LocalFileWriteCore (v : Vfd) (ret : Int) : Int × Vfd :=
  if 0 ≤ ret then (ret, { v with seekPos := v.seekPos + ret })
  else (ret, { v with seekPos := FileUnknownPos })

/-- Run a sequence of read (`true`) / write (`false`) operations against a
slot; the second component of each pair is the byte count the syscall
reports. -/
def runReadWrites (v : Vfd) (ops : List (Bool × Int)) : Vfd :=
  ops.foldl
    (fun w op =>
      if op.1 then (LocalFileReadCore w op.2).2 else (LocalFileWriteCore w op.2).2)
    v

/-! ### LRU ring, freelist and the close paths (fd.c 552-842, 1102-1142, 2531-2580) -/

/-- Observable side effects of the close paths, used to state ordering
properties (`unlink` after clearing `FD_TEMPORARY`, log-only failures). -/
inductive FdEv where
  | closeFd (fd : Int)
  | clearTempBit (file : Nat)
  | unlinkCall (name : String)
  | unlinkFailLog (name : String)
deriving Repr, DecidableEq

/-- `Delete(file)` (fd.c lines 552-569): unlink `file` from the LRU ring by
routing its neighbours around it. -/
def Delete (st : FdSt) (file : Nat) : FdSt :=
  let v := getVfd st file
  let st1 := updVfd st v.lruLessRecently
    (fun w => { w with lruMoreRecently := v.lruMoreRecently })
  updVfd st1 v.lruMoreRecently
    (fun w => { w with lruLessRecently := v.lruLessRecently })

/-- `Insert(file)` (fd.c lines 615-634): put `file` at the most-recent end of
the ring (anchored at slot 0).  Named `InsertLru` here because `Insert` is
taken by the Lean core library. -/
def InsertLru (st : FdSt) (file : Nat) : FdSt :=
  let head := (getVfd st 0).lruLessRecently
  let st1 := updVfd st file
    (fun w => { w with lruMoreRecently := 0, lruLessRecently := head })
  let st2 := updVfd st1 0 (fun w => { w with lruLessRecently := file })
  updVfd st2 head (fun w => { w with lruMoreRecently := file })

/-- `FreeVfd(file)` (fd.c lines 817-841): release the owned name, reset the
state bits and DFS handles, and push the slot onto the freelist head. -/
def FreeVfd (st : FdSt) (file : Nat) : FdSt :=
  let st1 := updVfd st file (fun w =>
    { w with fileName := none, fdstate := {}, hFS := false, hFile := false,
             hProtocol := none, nextFree := (getVfd st 0).nextFree })
  updVfd st1 0 (fun w => { w with nextFree := file })

/-- `AllocateVfd()` (fd.c lines 756-815): if the freelist is empty, double the
array (minimum 32), zero the new slots, chain them into the freelist with
`fd = VFD_CLOSED`; then pop and return the freelist head. -/
def AllocateVfd (st : FdSt) : Nat × FdSt :=
  let st :=
    if (getVfd st 0).nextFree = 0 then
      let oldSize := st.cache.length
      let newSize := max (oldSize * 2) 32
      let newSlots := (List.range (newSize - oldSize)).map (fun k =>
        ({ fd := -1,
           nextFree := if oldSize + k = newSize - 1 then 0 else oldSize + k + 1
         } : Vfd))
      let st1 : FdSt := { st with cache := st.cache ++ newSlots }
      updVfd st1 0 (fun w => { w with nextFree := oldSize })
    else st
  let file := (getVfd st 0).nextFree
  (file, updVfd st 0 (fun w => { w with nextFree := (getVfd st file).nextFree }))

/-- `LruDelete(file)` (fd.c lines 571-613): unlink from the ring, save the
current position into `seekPos` (`tell` is the result of `lseek(fd,0,SEEK_CUR)`
for local slots, of the DFS tell for DFS slots), `Insist` that it is not `-1`
(a violation is FATAL, modelled `.error`), close the descriptor or handle
(`closeOk` is the syscall result; failure raises `elog(ERROR)`), then decrement
`nfile` and clear the descriptor and handles. -/
def LruDelete (st : FdSt) (file : Nat) (tell : Int) (closeOk : Bool) :
    Except FdSt FdSt :=
  let st1 := Delete st file
  let st2 := updVfd st1 file (fun w => { w with seekPos := tell })
  if tell = -1 then .error st2
  else if !closeOk then .error st2
  else
    let st3 : FdSt := { st2 with nfile := st2.nfile - 1 }
    .ok (updVfd st3 file (fun w =>
      { w with fd := -1, hFS := false, hFile := false, hProtocol := none }))

/-- `ReleaseLruFile()` (fd.c lines 738-754): when `nfile > 0`, `LruDelete` the
slot at the least-recent end (`VfdCache[0].lruMoreRecently`) and report `true`;
otherwise report `false`. -/
def ReleaseLruFile (st : FdSt) (tell : Int) (closeOk : Bool) :
    Except FdSt (Bool × FdSt) :=
  if 0 < st.nfile then
    match LruDelete st ((getVfd st 0).lruMoreRecently) tell closeOk with
    | .error s => .error s
    | .ok s => .ok (true, s)
  else .ok (false, st)

/-- `LocalFileClose(file)` (fd.c lines 1102-1142).  If the slot is physically
open: unlink it from the ring, `gp_retry_close` the descriptor (failure raises
`elog(ERROR)` at that point), decrement `nfile` and mark the descriptor
closed.  Then, if `FD_TEMPORARY` is set: clear the bit first, then `unlink`
the file name, logging (not raising) on failure.  Finally free the slot. -/
def LocalFileClose (st : FdSt) (file : Nat) (closeOk unlinkOk : Bool) :
    Except (FdSt × List FdEv) (FdSt × List FdEv) :=
  let v := getVfd st file
  let step1 : Except (FdSt × List FdEv) (FdSt × List FdEv) :=
    if !(FileIsNotOpen st file) then
      let st1 := Delete st file
      if !closeOk then .error (st1, [.closeFd v.fd])
      else
        let st2 : FdSt := { st1 with nfile := st1.nfile - 1 }
        .ok (updVfd st2 file (fun w => { w with fd := -1 }), [.closeFd v.fd])
    else .ok (st, [])
  match step1 with
  | .error r => .error r
  | .ok (st1, evs) =>
    let v1 := getVfd st1 file
    let p :=
      if v1.fdstate.temporary then
        let stc := updVfd st1 file (fun w =>
          { w with fdstate := { w.fdstate with temporary := false } })
        let name := v1.fileName.getD ""
        if unlinkOk then (stc, evs ++ [.clearTempBit file, .unlinkCall name])
        else
          (stc, evs ++ [.clearTempBit file, .unlinkCall name, .unlinkFailLog name])
      else (st1, evs)
    .ok (FreeVfd p.1 file, p.2)

/-- `HdfsFileClose(file, canReportError)` (fd.c lines 2531-2580).  If the slot
is open, close the remote handle (`closeOk` is its result) and, regardless of
that result, clear the descriptor field and the DFS handles; then return the
slot to the freelist; only after that, a failed close raises `elog(ERROR)`
when `canReportError`, else it is logged as a warning. -/
def HdfsFileClose (st : FdSt) (file : Nat) (canReportError closeOk : Bool) :
    Except FdSt FdSt :=
  let failed := if !(FileIsNotOpen st file) then !closeOk else false
  let st1 :=
    if !(FileIsNotOpen st file) then
      updVfd st file (fun w =>
        { w with fd := -1, hFS := false, hFile := false, hProtocol := none })
    else st
  let st2 := FreeVfd st1 file
  if failed && canReportError then .error st2 else .ok st2

/-- `FileClose(file)` (fd.c lines 2919-2924): dispatch on `IsLocalFile`. -/
def FileClose (st : FdSt) (file : Nat) (closeOk unlinkOk : Bool) :
    Except (FdSt × List FdEv) (FdSt × List FdEv) :=
  if IsLocalFile (getVfd st file) then LocalFileClose st file closeOk unlinkOk
  else
    match HdfsFileClose st file true closeOk with
    | .error s => .error (s, [])
    | .ok s => .ok (s, [])

/-! ### `FileSeek` on the local back end (fd.c 1392-1444) -/

/-- Slot-level form of `FileIsNotOpen(file)`. -/
def FileIsNotOpenV (v : Vfd) : Bool := v.fd == -1 && !v.hFS && !v.hFile

/-- The three `whence` values accepted by `LocalFileSeek`. -/
inductive Whence where
  | sSet
  | sCur
  | sEnd
deriving Repr, DecidableEq

/-- Environment results consumed by `LocalFileSeek`: whether `FileAccess`
(the reopen preamble) succeeds, the descriptor it would install, and the
value `pg_lseek64` returns when it is actually issued. -/
structure SeekOracle where
  accessOk : Bool
  accessFd : Int
  lseekRes : Int
deriving Repr, DecidableEq

/-- `LocalFileSeek(file, offset, whence)` (fd.c lines 1392-1444) on one slot.
Returns `(returned value, slot after, whether a real lseek was issued)`.
When the slot is not physically open, `SEEK_SET`/`SEEK_CUR` only update the
cached `seekPos`, while `SEEK_END` runs `FileAccess` (modelled by the oracle:
on success the slot acquires `accessFd`; `LruInsert` restores the old position
which the subsequent `lseek` immediately overrides) and then seeks.  When the
slot is open, the `lseek` is skipped for `SEEK_SET` to the current position
and for `SEEK_CUR` with offset 0 and a known position.  The function returns
`VfdCache[file].seekPos` (except when `FileAccess` fails, where it returns the
negative error code, modelled as `-1`). -/
def LocalFileSeek (v : Vfd) (offset : Int) (w : Whence) (o : SeekOracle) :
    Int × Vfd × Bool :=
  if FileIsNotOpenV v then
    match w with
    | .sSet =>
      let v2 := { v with seekPos := offset }
      (v2.seekPos, v2, false)
    | .sCur =>
      let v2 := { v with seekPos := v.seekPos + offset }
      (v2.seekPos, v2, false)
    | .sEnd =>
      if !o.accessOk then (-1, v, false)
      else
        let v1 := { v with fd := o.accessFd }
        let v2 := { v1 with seekPos := o.lseekRes }
        (v2.seekPos, v2, true)
  else
    match w with
    | .sSet =>
      if v.seekPos ≠ offset then
        let v2 := { v with seekPos := o.lseekRes }
        (v2.seekPos, v2, true)
      else (v.seekPos, v, false)
    | .sCur =>
      if offset ≠ 0 ∨ v.seekPos = FileUnknownPos then
        let v2 := { v with seekPos := o.lseekRes }
        (v2.seekPos, v2, true)
      else (v.seekPos, v, false)
    | .sEnd =>
      let v2 := { v with seekPos := o.lseekRes }
      (v2.seekPos, v2, true)

/-! ### Startup sweep (`RemovePgTempFiles`, fd.c 2056-2169) -/

/-- `HasTempFilePrefix(fileName)` (fd.c lines 2164-2169): `strncmp` of the
name against the temp-file prefix (`PG_TEMP_FILE_PREFIX`, a constant from the
module header, passed here as `tag`).  Shortened name: the source calls this
`HasTempFilePrefix`. -/
def HasTempFilePfx (tag fileName : String) : Bool :=
  tag.data.isPrefixOf fileName.data

/-- `RemovePgTempFilesInDir(tmpdirname)` (fd.c lines 2092-2132).  `listing` is
what `AllocateDir`/`ReadDir` produce: `none` when the directory cannot be
opened (including `ENOENT`, in which case the function just returns), else the
entries.  Returns `(unlinked paths, logged-and-preserved paths)`; `.` and `..`
are skipped. -/
def RemovePgTempFilesInDir (tag dir : String) (listing : Option (List String)) :
    List String × List String :=
  match listing with
  | none => ([], [])
  | some entries =>
    entries.foldl
      (fun acc nm =>
        if nm = "." ∨ nm = ".." then acc
        else if HasTempFilePfx tag nm then (acc.1 ++ [dir ++ "/" ++ nm], acc.2)
        else (acc.1, acc.2 ++ [dir ++ "/" ++ nm]))
      ([], [])

/-- `RemovePgTempFiles()` (fd.c lines 2056-2089): for every entry of `base/`
other than `.` and `..`, sweep `base/<db>/<tmpdir>` (`tmpdir` stands for the
`PG_TEMP_FILES_DIR` header constant).  `listing` maps each temp directory path
to its `ReadDir` contents (`none` = could not be opened). -/
def RemovePgTempFiles (tag tmpdir : String) (dbs : List String)
    (listing : String → Option (List String)) : List String × List String :=
  dbs.foldl
    (fun acc db =>
      if db = "." ∨ db = ".." then acc
      else
        let d := "base/" ++ db ++ "/" ++ tmpdir
        let r := RemovePgTempFilesInDir tag d (listing d)
        (acc.1 ++ r.1, acc.2 ++ r.2))
    ([], [])

/-! ### DFS path handling and the DFS open path (fd.c 2294-2526) -/

/-- Split a character list at the first occurrence of the filesystem protocol
separator `://` (`fsys_protocol_sep`, fd.c line 2184), the way `strstr` finds
it: `some (before, after)` on success, `none` when the separator is absent. -/
def splitProtocolSep : List Char → Option (List Char × List Char)
  | [] => none
  | c :: rest =>
    if c = ':' ∧ rest.take 2 = ['/', '/'] then some ([], rest.drop 2)
    else
      match splitProtocolSep rest with
      | none => none
      | some p => some (c :: p.1, p.2)

/-- `IsLocalPath(fileName)` (fd.c lines 2294-2302): a path is local when it
starts with `local://` (`local_prefix`, fd.c line 2185) or contains no `://`
separator. -/
def IsLocalPath (fileName : String) : Bool :=
  "local://".data.isPrefixOf fileName.data ∨
    (splitProtocolSep fileName.data).isNone

/-- `HdfsGetProtocol(fileName, buf, size)` (fd.c lines 2319-2342): the part of
the path before the first `://`, or failure when there is no separator (the
buffer-size check is not modelled; buffers are unbounded here). -/
def HdfsGetProtocol (fileName : String) : Option String :=
  match splitProtocolSep fileName.data with
  | none => none
  | some p => some (String.mk p.1)

/-- `ConvertToUnixPath(fileName, buffer, len)` (fd.c lines 2388-2407): the
suffix of the path starting at the first `/` after the first `://`, or failure
when either marker is missing. -/
def ConvertToUnixPath (fileName : String) : Option String :=
  match splitProtocolSep fileName.data with
  | none => none
  | some p =>
    let suffix := p.2.dropWhile (fun c => c ≠ '/')
    if suffix = [] then none else some (String.mk suffix)

/-- Environment results consumed by the DFS open path: whether
`HdfsGetConnection` yields a connection, whether the `HdfsOpenFile` call
succeeds, and the results of the `HdfsSync`/`HdfsChmod` issued on `O_CREAT`. -/
structure HdfsOracle where
  connectOk : Bool
  openOk : Bool
  syncOk : Bool
  chmodOk : Bool
deriving Repr, DecidableEq

/-- `HdfsBasicOpenFile(fileName, fileFlags, fileMode, &hProtocol, &fs, &hFile)`
(fd.c lines 2415-2465).  Returns `(success, protocol written to *hProtocol)`.
The flags decide only which replica argument is passed to the external
`HdfsOpenFile` (a non-append write open passes the parsed replica count,
others pass 0 — `HdfsParseOptions` affects nothing else and is not modelled
further); no flag combination is rejected here.  On `O_CREAT`, a failing
`HdfsSync` or `HdfsChmod` turns the open into a failure. -/
def HdfsBasicOpenFile (fileName : String) (fileFlags : OFlags) (o : HdfsOracle) :
    Bool × Option String :=
  match HdfsGetProtocol fileName with
  | none => (false, none)
  | some proto =>
    let hProto := some proto
    if !o.connectOk then (false, hProto)
    else
      match ConvertToUnixPath fileName with
      | none => (false, hProto)
      | some _ =>
        if !o.openOk then (false, hProto)
        else if fileFlags.creat then
          if !o.syncOk then (false, hProto)
          else if !o.chmodOk then (false, hProto)
          else (true, hProto)
        else (true, hProto)

/-- `HdfsPathNameOpenFile(fileName, fileFlags, fileMode)` (fd.c lines
2472-2526): open through `HdfsBasicOpenFile`; on failure return `-1` with the
state unchanged; on success allocate a VFD slot, store the name, handles and
protocol, and save `fileFlags = (fileFlags & ~O_CREAT) | O_APPEND` for
reopening, with `seekPos = 0` and a clear `fdstate`. -/
def HdfsPathNameOpenFile (st : FdSt) (fileName : String) (fileFlags : OFlags)
    (fileMode : Nat) (o : HdfsOracle) : Int × FdSt :=
  let r := HdfsBasicOpenFile fileName fileFlags o
  if !r.1 then (-1, st)
  else
    let p := AllocateVfd st
    let file := p.1
    let st2 := updVfd p.2 file (fun w =>
      { w with fileName := some fileName, hFS := true, hFile := true,
               hProtocol := r.2,
               fileFlags := { fileFlags with creat := false, append := true },
               fileMode := fileMode, seekPos := 0, fdstate := {} })
    ((file : Int), st2)

/-! ### Descriptor-budget accounting across the public operations

The budget claim quantifies over every sequence of public operations, so the
effect of each operation on the pair `(nfile, numAllocatedDescs)` is modelled
as a transition relation.  Each constructor mirrors one code path of fd.c; the
parameter `k` counts the extra `ReleaseLruFile` calls performed by the
`EMFILE`/`ENFILE` retry loops of `BasicOpenFile` (fd.c 504-529),
`AllocateFile` (fd.c 1553-1576) and `AllocateDir` (fd.c 1710-1733); each such
call decrements `nfile` when it is positive, which the truncated subtraction
reproduces. -/

/-- The two descriptor counters of fd.c: `nfile` (line 165) and
`numAllocatedDescs` (line 202). -/
structure FdCounters where
  nfile : Nat
  numAllocatedDescs : Nat
deriving Repr, DecidableEq

/-- The eviction loop `while (nfile + numAllocatedDescs >= max_safe_fds)
{ if (!ReleaseLruFile()) break; }` (fd.c lines 919-923 and 660-664), acting on
`nfile`: each successful `ReleaseLruFile` decrements `nfile`; it fails (and
the loop breaks) exactly when `nfile = 0`. -/
def evictLoop (m d : Nat) : Nat → Nat
  | 0 => 0
  | n + 1 => if m ≤ n + 1 + d then evictLoop m d n else n + 1

/-- One public operation's effect on the counters, with `max_safe_fds = m`:
* `localOpenOk`/`localOpenFail`: `LocalPathNameOpenFile` (fd.c 899-947) or the
  local reopen in `LruInsert` (fd.c 658-677), both of which run the eviction
  loop, then `BasicOpenFile` (whose retries contribute `k`), and increment
  `nfile` exactly on success;
* `dfsOpen`: `HdfsPathNameOpenFile` (fd.c 2472-2526) touches neither counter;
* `allocOk`: `AllocateFile`/`AllocateDir` (fd.c 1535-1579, 1655-1736) succeed
  only past the guard `numAllocatedDescs < MAX_ALLOCATED_DESCS ∧
  numAllocatedDescs < max_safe_fds - 1`, retry via `ReleaseLruFile` (`k`), and
  increment `numAllocatedDescs`;
* `allocFail`: the same calls failing (or raising) after `k` retries;
* `closeFile`: `FileClose` (fd.c 2919-2924) decrements `nfile` when the slot
  was a physically open local one (`b = 1`), else leaves it (`b = 0`); the
  transaction hooks close files through this same path;
* `freeDesc`: `FreeDesc` (fd.c 1586-1615) decrements `numAllocatedDescs`. -/
inductive FdStep (m : Nat) : FdCounters → FdCounters → Prop where
  | localOpenOk (c : FdCounters) (k : Nat) :
      FdStep m c ⟨evictLoop m c.numAllocatedDescs c.nfile - k + 1,
                  c.numAllocatedDescs⟩
  | localOpenFail (c : FdCounters) (k : Nat) :
      FdStep m c ⟨evictLoop m c.numAllocatedDescs c.nfile - k,
                  c.numAllocatedDescs⟩
  | dfsOpen (c : FdCounters) : FdStep m c c
  | allocOk (c : FdCounters) (k : Nat)
      (h1 : c.numAllocatedDescs < MAX_ALLOCATED_DESCS)
      (h2 : c.numAllocatedDescs + 1 < m) :
      FdStep m c ⟨c.nfile - k, c.numAllocatedDescs + 1⟩
  | allocFail (c : FdCounters) (k : Nat) :
      FdStep m c ⟨c.nfile - k, c.numAllocatedDescs⟩
  | closeFile (c : FdCounters) (b : Nat) (hb : b ≤ 1) :
      FdStep m c ⟨c.nfile - b, c.numAllocatedDescs⟩
  | freeDesc (c : FdCounters) :
      FdStep m c ⟨c.nfile, c.numAllocatedDescs - 1⟩

/-- Counter states reachable from a fresh backend (`nfile = 0`,
`numAllocatedDescs = 0`, fd.c lines 165 and 202) by public operations. -/
inductive FdReachable (m : Nat) : FdCounters → Prop where
  | init : FdReachable m ⟨0, 0⟩
  | step {c c1 : FdCounters} : FdReachable m c → FdStep m c c1 → FdReachable m c1

/-! ### Sub-transaction end (`AtEOSubXact_Files`, fd.c 1905-1942) -/

/-- The VFD half of `AtEOSubXact_Files` (fd.c lines 1911-1927): scan slots
`1 .. SizeVfdCache-1`; a slot with `FD_CLOSE_AT_EOXACT` set and
`create_subid == mySubid` is reassigned to `parentSubid` on commit, and closed
through `FileClose` on abort when its name is set.  The table size never
changes during the scan, and the index rises by 1 each iteration, so fuel
`SizeVfdCache` makes the fuel-based recursion exact.  `closeOk`/`unlinkOk`
give the per-slot syscall results consumed by `FileClose`; an `elog(ERROR)`
escaping `FileClose` aborts the scan (`.error`). -/
def AtEOSubXactVfds (isCommit : Bool) (mySubid parentSubid : Nat)
    (closeOk unlinkOk : Nat → Bool) :
    Nat → Nat → FdSt → List FdEv → Except (FdSt × List FdEv) (FdSt × List FdEv)
  | 0, _, st, acc => .ok (st, acc)
  | fuel + 1, i, st, acc =>
    if i < st.cache.length then
      let v := getVfd st i
      if v.fdstate.closeAtEOXact && v.create_subid == mySubid then
        if isCommit then
          AtEOSubXactVfds isCommit mySubid parentSubid closeOk unlinkOk fuel
            (i + 1) (updVfd st i (fun w => { w with create_subid := parentSubid }))
            acc
        else if v.fileName.isSome then
          match FileClose st i (closeOk i) (unlinkOk i) with
          | .error r => .error (r.1, acc ++ r.2)
          | .ok r =>
            AtEOSubXactVfds isCommit mySubid parentSubid closeOk unlinkOk fuel
              (i + 1) r.1 (acc ++ r.2)
        else
          AtEOSubXactVfds isCommit mySubid parentSubid closeOk unlinkOk fuel
            (i + 1) st acc
      else
        AtEOSubXactVfds isCommit mySubid parentSubid closeOk unlinkOk fuel
          (i + 1) st acc
    else .ok (st, acc)

/-- One entry of the allocated-descriptor registry `allocatedDescs`
(fd.c lines 184-203), abstracted to its creating sub-transaction id and an
opaque payload identifying the underlying handle. -/
structure ADesc where
  create_subid : Nat
  payload : Nat
deriving Repr, DecidableEq

/-- The registry half of `AtEOSubXact_Files` (fd.c lines 1929-1941): walk the
entries; on commit reassign matching entries to the parent; on abort free a
matching entry via `FreeDesc`, which compacts by moving the last entry into
the freed position (fd.c 1610-1612) — hence the `i--`/re-examine pattern,
modelled by recursing with the same index on the compacted list. -/
def AtEOSubXactDescs (isCommit : Bool) (mySubid parentSubid : Nat)
    (i : Nat) (l : List ADesc) : List ADesc :=
  if h : i < l.length then
    let e := l.get ⟨i, h⟩
    if e.create_subid = mySubid then
      if isCommit then
        AtEOSubXactDescs isCommit mySubid parentSubid (i + 1)
          (l.set i { e with create_subid := parentSubid })
      else
        AtEOSubXactDescs isCommit mySubid parentSubid i
          ((l.set i (l.getD (l.length - 1) e)).dropLast)
    else AtEOSubXactDescs isCommit mySubid parentSubid (i + 1) l
  else l
termination_by l.length - i
decreasing_by
  · simp [List.length_set]
    omega
  · simp [List.length_dropLast, List.length_set]
    omega
  · omega

/-! ### Claim C5: seek accounting under reads and writes -/

theorem runReadWrites_sum (ops : List (Bool × Int)) :
    ∀ v : Vfd, (∀ op ∈ ops, 0 ≤ op.2) →
      (runReadWrites v ops).seekPos = v.seekPos + (ops.map (fun op => op.2)).sum := by
  induction ops with
  | nil => intro v _; simp [runReadWrites]
  | cons op rest ih =>
    intro v hok
    have h0 : 0 ≤ op.2 := hok op (List.mem_cons_self _ _)
    have hrest : ∀ o ∈ rest, 0 ≤ o.2 := fun o ho => hok o (List.mem_cons_of_mem _ ho)
    simp only [runReadWrites, List.foldl_cons] at *
    rw [ih _ hrest]
    cases hb : op.1 <;>
      simp [LocalFileReadCore, LocalFileWriteCore, h0, hb] <;> ring

/-- C5: starting from a slot whose `seekPos` is the known value `start`, any
sequence of `FileRead`/`FileWrite` calls that all succeed, transferring
`n₁, …, nₖ ≥ 0` bytes respectively, leaves `seekPos = start + Σ nᵢ`; a failed
read or write instead sets `seekPos` to the unknown sentinel
`FileUnknownPos`. -/
theorem fileReadWrite_seek_accounting (v : Vfd) (start : Int)
    (ops : List (Bool × Int)) (hstart : v.seekPos = start)
    (hok : ∀ op ∈ ops, 0 ≤ op.2) :
    (runReadWrites v ops).seekPos = start + (ops.map (fun op => op.2)).sum ∧
    ∀ w : Vfd, ∀ r : Int, r < 0 →
      (LocalFileReadCore w r).2.seekPos = FileUnknownPos ∧
      (LocalFileWriteCore w r).2.seekPos = FileUnknownPos := by
  refine ⟨hstart ▸ runReadWrites_sum ops v hok, ?_⟩
  intro w r hr
  constructor <;>
    simp [LocalFileReadCore, LocalFileWriteCore, if_neg (not_le.mpr hr)]

theorem fileReadWrite_seek_accounting_witness :
    (runReadWrites {} [(true, 2), (false, 3)]).seekPos = 5 := by
  have h := (fileReadWrite_seek_accounting {} 0 [(true, 2), (false, 3)] rfl
    (by decide)).1
  simpa using h

/-! ### Claim C8: `FileSeek` syscall avoidance and cached-position updates -/

/-- C8: behaviour of `LocalFileSeek` on a local VFD (with a succeeding
`FileAccess` oracle).  When the slot is physically open, the real `lseek` is
issued only when it would observably change the position: it is skipped for
`SEEK_SET` to the current known position and for `SEEK_CUR` with offset 0 and
a known position.  When the slot is not physically open, `SEEK_SET` and
`SEEK_CUR` only update the cached `seekPos` (to `offset`, resp.
`seekPos + offset`) without opening the file, while `SEEK_END` forces a
physical open.  The returned value is the resulting `seekPos`. -/
theorem localFileSeek_spec (v : Vfd) (offset : Int) (o : SeekOracle)
    (ho : o.accessOk = true) :
    (FileIsNotOpenV v = true →
      LocalFileSeek v offset .sSet o = (offset, { v with seekPos := offset }, false) ∧
      LocalFileSeek v offset .sCur o =
        (v.seekPos + offset, { v with seekPos := v.seekPos + offset }, false) ∧
      LocalFileSeek v offset .sEnd o =
        (o.lseekRes, { v with fd := o.accessFd, seekPos := o.lseekRes }, true)) ∧
    (FileIsNotOpenV v = false →
      (v.seekPos = offset → LocalFileSeek v offset .sSet o = (v.seekPos, v, false)) ∧
      (v.seekPos ≠ offset →
        LocalFileSeek v offset .sSet o =
          (o.lseekRes, { v with seekPos := o.lseekRes }, true)) ∧
      (offset = 0 → v.seekPos ≠ FileUnknownPos →
        LocalFileSeek v offset .sCur o = (v.seekPos, v, false)) ∧
      ((offset ≠ 0 ∨ v.seekPos = FileUnknownPos) →
        LocalFileSeek v offset .sCur o =
          (o.lseekRes, { v with seekPos := o.lseekRes }, true)) ∧
      LocalFileSeek v offset .sEnd o =
        (o.lseekRes, { v with seekPos := o.lseekRes }, true)) ∧
    (∀ w : Whence,
      (LocalFileSeek v offset w o).1 = (LocalFileSeek v offset w o).2.1.seekPos) := by
  refine ⟨?_, ?_, ?_⟩
  · intro hno
    refine ⟨?_, ?_, ?_⟩ <;> simp [LocalFileSeek, hno, ho]
  · intro hopen
    refine ⟨?_, ?_, ?_, ?_⟩
    · intro he; simp [LocalFileSeek, hopen, he]
    · intro hne; simp [LocalFileSeek, hopen, hne]
    · intro h0 hk; simp [LocalFileSeek, hopen, h0, hk]
    · constructor
      · intro hor; simp [LocalFileSeek, hopen, hor]
      · simp [LocalFileSeek, hopen]
  · intro w
    cases w <;> by_cases hno : FileIsNotOpenV v <;>
      simp [LocalFileSeek, hno, ho] <;> split <;> simp

theorem localFileSeek_witness :
    LocalFileSeek {} 5 .sSet ⟨true, 3, 9⟩ =
      (5, { ({} : Vfd) with seekPos := 5 }, false) :=
  ((localFileSeek_spec {} 5 ⟨true, 3, 9⟩ rfl).1 rfl).1

/-! ### Claim C2: the FD budget probe -/

theorem countUsableGo_char (dups : Nat → Option Nat) (mtp : Nat) :
    ∀ fuel used highest, fuel + used = mtp + 1 → used < mtp →
      used ≤ (countUsableGo dups mtp fuel used highest).1 ∧
      (countUsableGo dups mtp fuel used highest).1 ≤ mtp ∧
      (∀ i, used ≤ i → i < (countUsableGo dups mtp fuel used highest).1 →
        (dups i).isSome) ∧
      ((countUsableGo dups mtp fuel used highest).1 = mtp ∨
        dups (countUsableGo dups mtp fuel used highest).1 = none) ∧
      (countUsableGo dups mtp fuel used highest).2 =
        (List.range' used ((countUsableGo dups mtp fuel used highest).1 - used)).foldl
          (fun h i => max h ((dups i).getD 0)) highest := by
  intro fuel
  induction fuel with
  | zero => intro used highest h1 h2; omega
  | succ fuel ih =>
    intro used highest h1 h2
    cases hd : dups used with
    | none =>
      simp only [countUsableGo, hd]
      refine ⟨le_refl _, le_of_lt h2, ?_, ?_, ?_⟩
      · intro i hi1 hi2; omega
      · simp [hd]
      · simp
    | some fd =>
      by_cases hstop : mtp ≤ used + 1
      · simp only [countUsableGo, hd, if_pos hstop]
        have hmtp : used + 1 = mtp := by omega
        refine ⟨Nat.le_succ _, le_of_eq hmtp, ?_, Or.inl hmtp, ?_⟩
        · intro i hi1 hi2
          have : i = used := by omega
          subst this; simp [hd]
        · have : used + 1 - used = 1 := by omega
          simp [this, List.range'_one, hd]
      · simp only [countUsableGo, hd, if_neg hstop]
        have hrec := ih (used + 1) (max highest fd) (by omega) (by omega)
        refine ⟨le_trans (Nat.le_succ _) hrec.1, hrec.2.1, ?_, hrec.2.2.2.1, ?_⟩
        · intro i hi1 hi2
          rcases Nat.eq_or_lt_of_le hi1 with he | hlt
          · subst he; simp [hd]
          · exact hrec.2.2.1 i hlt hi2
        · have hsz : (countUsableGo dups mtp fuel (used + 1) (max highest fd)).1 - used =
              ((countUsableGo dups mtp fuel (used + 1) (max highest fd)).1 - (used + 1)) + 1 := by
            have := hrec.1; omega
          rw [hsz, List.range'_succ, List.foldl_cons]
          simpa [hd] using hrec.2.2.2.2

/-- C2: `set_max_safe_fds` sets `max_safe_fds` to
`min(usable_fds, max_files_per_process − already_open) − 10`, where
`usable_fds` is the number of successful dups of descriptor 0 (capped at
`max_files_per_process`) and `already_open` is the highest descriptor observed
(starting from 0) plus 1 minus `usable_fds`; it raises the fatal
insufficient-resources error exactly when that value is below 10
(`FD_MINFREE`), and otherwise returns normally with `max_safe_fds` set to that
value (`NUM_RESERVED_FDS = FD_MINFREE = 10`). -/
theorem set_max_safe_fds_spec (dups : Nat → Option Nat) (cap : Nat)
    (hcap : 1 ≤ cap) :
    (∀ i, i < (count_usable_fds dups cap).1 → (dups i).isSome) ∧
    ((count_usable_fds dups cap).1 = cap ∨
      dups (count_usable_fds dups cap).1 = none) ∧
    (count_usable_fds dups cap).1 ≤ cap ∧
    (count_usable_fds dups cap).2 =
      (((List.range' 0 (count_usable_fds dups cap).1).foldl
          (fun h i => max h ((dups i).getD 0)) 0 : Nat) : Int) + 1 -
        ((count_usable_fds dups cap).1 : Int) ∧
    (set_max_safe_fds_model dups cap = .error () ↔
      min ((count_usable_fds dups cap).1 : Int)
          ((cap : Int) - (count_usable_fds dups cap).2) - NUM_RESERVED_FDS <
        FD_MINFREE) ∧
    (∀ v, set_max_safe_fds_model dups cap = .ok v →
      v = min ((count_usable_fds dups cap).1 : Int)
            ((cap : Int) - (count_usable_fds dups cap).2) - NUM_RESERVED_FDS ∧
      FD_MINFREE ≤ v) := by
  have hchar := countUsableGo_char dups cap (cap + 1) 0 0 (by omega) (by omega)
  have h1 : (count_usable_fds dups cap).1 =
      (countUsableGo dups cap (cap + 1) 0 0).1 := rfl
  have h2 : (count_usable_fds dups cap).2 =
      ((countUsableGo dups cap (cap + 1) 0 0).2 : Int) + 1 -
        ((countUsableGo dups cap (cap + 1) 0 0).1 : Int) := rfl
  refine ⟨?_, ?_, ?_, ?_, ?_, ?_⟩
  · intro i hi
    exact hchar.2.2.1 i (Nat.zero_le _) (h1 ▸ hi)
  · rw [h1]; exact hchar.2.2.2.1
  · rw [h1]; exact hchar.2.1
  · rw [h1, h2]
    have := hchar.2.2.2.2
    simp only [Nat.sub_zero] at this
    rw [this]
  · unfold set_max_safe_fds_model
    constructor
    · intro he
      by_contra hlt
      simp only [if_neg hlt] at he
      exact Except.noConfusion he
    · intro hlt
      simp only [if_pos hlt]
  · intro v hv
    unfold set_max_safe_fds_model at hv
    by_cases hlt : min ((count_usable_fds dups cap).1 : Int)
        ((cap : Int) - (count_usable_fds dups cap).2) - NUM_RESERVED_FDS <
          FD_MINFREE
    · simp only [if_pos hlt] at hv
      exact Except.noConfusion hv
    · simp only [if_neg hlt] at hv
      cases hv
      exact ⟨rfl, le_of_not_lt hlt⟩

/-- A concrete probe: 12 successful dups returning descriptors 1..12, then
failure. -/
def probeDupsEx : Nat → Option Nat := fun i => if i < 12 then some (i + 1) else none

theorem set_max_safe_fds_witness :
    set_max_safe_fds_model probeDupsEx 1000 = .error () := by
  have h := (set_max_safe_fds_spec probeDupsEx 1000 (by decide)).2.2.2.2.1
  exact h.mpr (by decide)

/-! ### Claim C9: the startup sweep -/

theorem removeInDir_fold (tag dir : String) (es : List String) :
    ∀ acc : List String × List String,
      es.foldl
        (fun acc nm =>
          if nm = "." ∨ nm = ".." then acc
          else if HasTempFilePfx tag nm then (acc.1 ++ [dir ++ "/" ++ nm], acc.2)
          else (acc.1, acc.2 ++ [dir ++ "/" ++ nm]))
        acc =
      (acc.1 ++ (es.filter
          (fun nm => !(nm == "." || nm == "..") && HasTempFilePfx tag nm)).map
            (fun nm => dir ++ "/" ++ nm),
       acc.2 ++ (es.filter
          (fun nm => !(nm == "." || nm == "..") && !HasTempFilePfx tag nm)).map
            (fun nm => dir ++ "/" ++ nm)) := by
  induction es with
  | nil => intro acc; simp
  | cons nm rest ih =>
    intro acc
    by_cases hdot : nm = "." ∨ nm = ".."
    · have hb : (nm == "." || nm == "..") = true := by
        rcases hdot with h | h <;> simp [h]
      simp only [List.foldl_cons, if_pos hdot, List.filter_cons, hb]
      simpa using ih acc
    · have hb : (nm == "." || nm == "..") = false := by
        simp only [Bool.or_eq_false_iff, beq_eq_false_iff_ne]
        exact ⟨fun h => hdot (Or.inl h), fun h => hdot (Or.inr h)⟩
      by_cases htag : HasTempFilePfx tag nm
      · simp only [List.foldl_cons, if_neg hdot, if_pos htag, List.filter_cons,
          hb, htag]
        rw [ih]
        simp
      · simp only [List.foldl_cons, if_neg hdot, if_pos, if_neg htag,
          List.filter_cons, hb]
        rw [ih]
        simp [htag]

theorem removeSweep_fold (tag tmpdir : String)
    (listing : String → Option (List String)) (dbs : List String) :
    ∀ acc : List String × List String,
      dbs.foldl
        (fun acc db =>
          if db = "." ∨ db = ".." then acc
          else
            let d := "base/" ++ db ++ "/" ++ tmpdir
            let r := RemovePgTempFilesInDir tag d (listing d)
            (acc.1 ++ r.1, acc.2 ++ r.2))
        acc =
      (acc.1 ++ (dbs.filter (fun db => !(db == "." || db == ".."))).flatMap
          (fun db =>
            (RemovePgTempFilesInDir tag ("base/" ++ db ++ "/" ++ tmpdir)
              (listing ("base/" ++ db ++ "/" ++ tmpdir))).1),
       acc.2 ++ (dbs.filter (fun db => !(db == "." || db == ".."))).flatMap
          (fun db =>
            (RemovePgTempFilesInDir tag ("base/" ++ db ++ "/" ++ tmpdir)
              (listing ("base/" ++ db ++ "/" ++ tmpdir))).2)) := by
  induction dbs with
  | nil => intro acc; simp
  | cons db rest ih =>
    intro acc
    by_cases hdot : db = "." ∨ db = ".."
    · have hb : (db == "." || db == "..") = true := by
        rcases hdot with h | h <;> simp [h]
      simp only [List.foldl_cons, if_pos hdot, List.filter_cons, hb]
      simpa using ih acc
    · have hb : (db == "." || db == "..") = false := by
        simp only [Bool.or_eq_false_iff, beq_eq_false_iff_ne]
        exact ⟨fun h => hdot (Or.inl h), fun h => hdot (Or.inr h)⟩
      simp only [List.foldl_cons, if_neg hdot, List.filter_cons, hb]
      rw [ih]
      simp

/-- C9: `RemovePgTempFiles` visits each per-database `pgsql_tmp` directory
and, skipping `.` and `..`, unlinks an entry exactly when its basename begins
with the temp-file prefix; any other entry is logged and left in place
(second component), and a directory whose listing cannot be obtained
(including a missing one) contributes nothing while the sweep of the remaining
directories is unaffected (the result is the independent concatenation over
the directories). -/
theorem removePgTempFiles_spec (tag tmpdir : String) (dbs : List String)
    (listing : String → Option (List String)) :
    (∀ dir es, RemovePgTempFilesInDir tag dir (some es) =
      ((es.filter
          (fun nm => !(nm == "." || nm == "..") && HasTempFilePfx tag nm)).map
            (fun nm => dir ++ "/" ++ nm),
       (es.filter
          (fun nm => !(nm == "." || nm == "..") && !HasTempFilePfx tag nm)).map
            (fun nm => dir ++ "/" ++ nm))) ∧
    (∀ dir, RemovePgTempFilesInDir tag dir none = ([], [])) ∧
    RemovePgTempFiles tag tmpdir dbs listing =
      ((dbs.filter (fun db => !(db == "." || db == ".."))).flatMap
          (fun db =>
            (RemovePgTempFilesInDir tag ("base/" ++ db ++ "/" ++ tmpdir)
              (listing ("base/" ++ db ++ "/" ++ tmpdir))).1),
       (dbs.filter (fun db => !(db == "." || db == ".."))).flatMap
          (fun db =>
            (RemovePgTempFilesInDir tag ("base/" ++ db ++ "/" ++ tmpdir)
              (listing ("base/" ++ db ++ "/" ++ tmpdir))).2)) := by
  refine ⟨?_, fun dir => rfl, ?_⟩
  · intro dir es
    have h := removeInDir_fold tag dir es ([], [])
    simpa [RemovePgTempFilesInDir] using h
  · have h := removeSweep_fold tag tmpdir listing dbs ([], [])
    simpa [RemovePgTempFiles] using h

/-! ### Frame lemmas for the table operations -/

theorem getVfd_setVfd (st : FdSt) (i j : Nat) (v : Vfd) :
    getVfd (setVfd st i v) j =
      if i = j ∧ i < st.cache.length then v else getVfd st j := by
  by_cases h1 : i = j
  · subst h1
    by_cases h2 : i < st.cache.length
    · simp [getVfd_setVfd_self st i v h2, h2]
    · have hset : st.cache.set i v = st.cache :=
        List.set_eq_of_length_le (le_of_not_lt h2)
      simp [getVfd, setVfd, hset, h2]
  · simp [getVfd_setVfd_ne st i j v h1, h1]

/-- Equality of two slots on every field except the LRU ring links and the
freelist link — the representation-level bookkeeping fields. -/
def eqExceptLinks (a b : Vfd) : Prop :=
  a.fd = b.fd ∧ a.fdstate = b.fdstate ∧ a.create_subid = b.create_subid ∧
  a.seekPos = b.seekPos ∧ a.fileName = b.fileName ∧
  a.fileFlags = b.fileFlags ∧ a.fileMode = b.fileMode ∧
  a.hFS = b.hFS ∧ a.hFile = b.hFile ∧ a.hProtocol = b.hProtocol

theorem eqExceptLinks_refl (a : Vfd) : eqExceptLinks a a :=
  ⟨rfl, rfl, rfl, rfl, rfl, rfl, rfl, rfl, rfl, rfl⟩

theorem eqExceptLinks_trans {a b c : Vfd} (h1 : eqExceptLinks a b)
    (h2 : eqExceptLinks b c) : eqExceptLinks a c := by
  obtain ⟨e1, e2, e3, e4, e5, e6, e7, e8, e9, e10⟩ := h1
  obtain ⟨f1, f2, f3, f4, f5, f6, f7, f8, f9, f10⟩ := h2
  exact ⟨e1.trans f1, e2.trans f2, e3.trans f3, e4.trans f4, e5.trans f5,
    e6.trans f6, e7.trans f7, e8.trans f8, e9.trans f9, e10.trans f10⟩

theorem updVfd_frame_of (st : FdSt) (t j : Nat) (f : Vfd → Vfd)
    (hf : ∀ w, eqExceptLinks (f w) w) :
    eqExceptLinks (getVfd (updVfd st t f) j) (getVfd st j) := by
  rw [updVfd, getVfd_setVfd]
  split
  · next h =>
    obtain ⟨h1, _⟩ := h
    subst h1
    exact hf _
  · exact eqExceptLinks_refl _

theorem delete_frame (st : FdSt) (x j : Nat) :
    eqExceptLinks (getVfd (Delete st x) j) (getVfd st j) := by
  unfold Delete
  exact eqExceptLinks_trans
    (updVfd_frame_of _ _ _ _
      (fun w => ⟨rfl, rfl, rfl, rfl, rfl, rfl, rfl, rfl, rfl, rfl⟩))
    (updVfd_frame_of _ _ _ _
      (fun w => ⟨rfl, rfl, rfl, rfl, rfl, rfl, rfl, rfl, rfl, rfl⟩))

theorem insertLru_frame (st : FdSt) (x j : Nat) :
    eqExceptLinks (getVfd (InsertLru st x) j) (getVfd st j) := by
  unfold InsertLru
  exact eqExceptLinks_trans
    (updVfd_frame_of _ _ _ _
      (fun w => ⟨rfl, rfl, rfl, rfl, rfl, rfl, rfl, rfl, rfl, rfl⟩))
    (eqExceptLinks_trans
      (updVfd_frame_of _ _ _ _
        (fun w => ⟨rfl, rfl, rfl, rfl, rfl, rfl, rfl, rfl, rfl, rfl⟩))
      (updVfd_frame_of _ _ _ _
        (fun w => ⟨rfl, rfl, rfl, rfl, rfl, rfl, rfl, rfl, rfl, rfl⟩)))

theorem freeVfd_frame (st : FdSt) (x j : Nat) (hj : j ≠ x) :
    eqExceptLinks (getVfd (FreeVfd st x) j) (getVfd st j) := by
  unfold FreeVfd
  have h1 : getVfd
      (updVfd st x (fun w =>
        { w with fileName := none, fdstate := {}, hFS := false, hFile := false,
                 hProtocol := none, nextFree := (getVfd st 0).nextFree })) j =
      getVfd st j :=
    getVfd_updVfd_ne st x j _ (fun h => hj h.symm)
  refine eqExceptLinks_trans
    (updVfd_frame_of _ _ _ _
      (fun w => ⟨rfl, rfl, rfl, rfl, rfl, rfl, rfl, rfl, rfl, rfl⟩)) ?_
  rw [h1]
  exact eqExceptLinks_refl _

theorem length_Delete (st : FdSt) (x : Nat) :
    (Delete st x).cache.length = st.cache.length := by
  unfold Delete
  rw [length_updVfd, length_updVfd]

theorem length_FreeVfd (st : FdSt) (x : Nat) :
    (FreeVfd st x).cache.length = st.cache.length := by
  unfold FreeVfd
  rw [length_updVfd, length_updVfd]

theorem nfile_Delete (st : FdSt) (x : Nat) : (Delete st x).nfile = st.nfile := rfl

theorem nfile_FreeVfd (st : FdSt) (x : Nat) : (FreeVfd st x).nfile = st.nfile := rfl

theorem freeVfd_at (st : FdSt) (x : Nat) (h0 : 0 < x)
    (hlen : x < st.cache.length) :
    (getVfd (FreeVfd st x) x).fileName = none ∧
    (getVfd (FreeVfd st x) x).fdstate = {} ∧
    (getVfd (FreeVfd st x) 0).nextFree = x := by
  unfold FreeVfd
  have hne : (0 : Nat) ≠ x := Nat.ne_of_lt h0
  have hx := getVfd_updVfd_ne
    (updVfd st x (fun w =>
      { w with fileName := none, fdstate := {}, hFS := false, hFile := false,
               hProtocol := none, nextFree := (getVfd st 0).nextFree }))
    0 x (fun w => { w with nextFree := x }) hne
  rw [hx, getVfd_updVfd_self st x _ hlen]
  have h0len : 0 < (updVfd st x (fun w =>
      { w with fileName := none, fdstate := {}, hFS := false, hFile := false,
               hProtocol := none, nextFree := (getVfd st 0).nextFree })).cache.length := by
    rw [length_updVfd]; omega
  rw [getVfd_updVfd_self _ 0 _ h0len]
  exact ⟨rfl, rfl, rfl⟩

/-! ### Claim C7: temporary-file close ordering and log-only unlink failure -/

/-- C7: `FileClose` on a local slot with `FD_TEMPORARY` set (and a succeeding
descriptor close) clears the `TEMPORARY` bit strictly before issuing `unlink`
on the file name — in the observable event trace the `clearTempBit` event
precedes the `unlinkCall` event — and an `unlink` failure is only logged: the
call still returns normally (`.ok`, never `.error`), the slot's name is
released, its state bits are cleared, and the slot is pushed onto the
freelist head. -/
theorem localFileClose_temp_spec (st : FdSt) (file : Nat) (unlinkOk : Bool)
    (nm : String) (h0 : 0 < file) (hlen : file < st.cache.length)
    (htmp : (getVfd st file).fdstate.temporary = true)
    (hnm : (getVfd st file).fileName = some nm) :
    ∃ s evs, LocalFileClose st file true unlinkOk = .ok (s, evs) ∧
      (∃ k1 k2, k1 < k2 ∧ evs.get? k1 = some (.clearTempBit file) ∧
        evs.get? k2 = some (.unlinkCall nm)) ∧
      (getVfd s file).fileName = none ∧ (getVfd s file).fdstate = {} ∧
      (getVfd s 0).nextFree = file ∧
      (unlinkOk = false → FdEv.unlinkFailLog nm ∈ evs) := by
  by_cases hop : FileIsNotOpen st file
  · have hkey : LocalFileClose st file true unlinkOk =
        .ok (FreeVfd (updVfd st file (fun w =>
              { w with fdstate := { w.fdstate with temporary := false } })) file,
          if unlinkOk then [FdEv.clearTempBit file, FdEv.unlinkCall nm]
          else [FdEv.clearTempBit file, FdEv.unlinkCall nm,
                FdEv.unlinkFailLog nm]) := by
      simp only [LocalFileClose, hop, htmp, hnm]
      cases unlinkOk <;> simp [htmp, hnm]
    have hat := freeVfd_at
      (updVfd st file (fun w =>
        { w with fdstate := { w.fdstate with temporary := false } })) file h0
      (by rw [length_updVfd]; exact hlen)
    refine ⟨_, _, hkey, ?_, hat.1, hat.2.1, hat.2.2, ?_⟩
    · cases unlinkOk
      · exact ⟨0, 1, by omega, rfl, rfl⟩
      · exact ⟨0, 1, by omega, rfl, rfl⟩
    · cases unlinkOk
      · intro _; simp
      · intro h; exact absurd h (by simp)
  · replace hop : FileIsNotOpen st file = false := by
      simpa using hop
    have hlen1 : file < (Delete st file).cache.length := by
      rw [length_Delete]; exact hlen
    have hfr := delete_frame st file file
    have htmpA : (getVfd (updVfd
        { Delete st file with nfile := (Delete st file).nfile - 1 } file
        (fun w => { w with fd := -1 })) file).fdstate.temporary = true := by
      rw [getVfd_updVfd_self _ file _ (by simpa using hlen1)]
      show (getVfd (Delete st file) file).fdstate.temporary = true
      rw [hfr.2.1]
      exact htmp
    have hnmA : (getVfd (updVfd
        { Delete st file with nfile := (Delete st file).nfile - 1 } file
        (fun w => { w with fd := -1 })) file).fileName = some nm := by
      rw [getVfd_updVfd_self _ file _ (by simpa using hlen1)]
      show (getVfd (Delete st file) file).fileName = some nm
      rw [hfr.2.2.2.2.1]
      exact hnm
    have hkey : LocalFileClose st file true unlinkOk =
        .ok (FreeVfd (updVfd (updVfd
            { Delete st file with nfile := (Delete st file).nfile - 1 } file
            (fun w => { w with fd := -1 })) file (fun w =>
              { w with fdstate := { w.fdstate with temporary := false } })) file,
          if unlinkOk then
            [FdEv.closeFd (getVfd st file).fd, FdEv.clearTempBit file,
              FdEv.unlinkCall nm]
          else
            [FdEv.closeFd (getVfd st file).fd, FdEv.clearTempBit file,
              FdEv.unlinkCall nm, FdEv.unlinkFailLog nm]) := by
      simp only [LocalFileClose, hop, htmpA, hnmA]
      cases unlinkOk <;> simp [htmpA, hnmA]
    have hat := freeVfd_at
      (updVfd (updVfd
        { Delete st file with nfile := (Delete st file).nfile - 1 } file
        (fun w => { w with fd := -1 })) file (fun w =>
          { w with fdstate := { w.fdstate with temporary := false } })) file h0
      (by rw [length_updVfd, length_updVfd]; simpa using hlen1)
    refine ⟨_, _, hkey, ?_, hat.1, hat.2.1, hat.2.2, ?_⟩
    · cases unlinkOk
      · exact ⟨1, 2, by omega, rfl, rfl⟩
      · exact ⟨1, 2, by omega, rfl, rfl⟩
    · cases unlinkOk
      · intro _; simp
      · intro h; exact absurd h (by simp)

theorem localFileClose_temp_witness :
    ∃ s evs,
      LocalFileClose
        { cache := [{ fd := -1 },
            { fd := -1, fdstate := { temporary := true },
              fileName := some "t3b" }], nfile := 0 } 1 true false =
        .ok (s, evs) ∧
      (∃ k1 k2, k1 < k2 ∧ evs.get? k1 = some (.clearTempBit 1) ∧
        evs.get? k2 = some (.unlinkCall "t3b")) ∧
      (getVfd s 1).fileName = none ∧ (getVfd s 1).fdstate = {} ∧
      (getVfd s 0).nextFree = 1 ∧
      (false = false → FdEv.unlinkFailLog "t3b" ∈ evs) :=
  localFileClose_temp_spec _ 1 false "t3b" (by decide) (by decide) (by decide)
    (by decide)

theorem freeVfd_clears (st : FdSt) (x : Nat) (h0 : 0 < x)
    (hlen : x < st.cache.length) :
    (getVfd (FreeVfd st x) x).hFS = false ∧
    (getVfd (FreeVfd st x) x).hFile = false ∧
    (getVfd (FreeVfd st x) x).hProtocol = none := by
  unfold FreeVfd
  have hne : (0 : Nat) ≠ x := Nat.ne_of_lt h0
  rw [getVfd_updVfd_ne _ 0 x _ hne, getVfd_updVfd_self st x _ hlen]
  exact ⟨rfl, rfl, rfl⟩

/-! ### Claim C10: DFS close always clears and frees; local close does not -/

/-- C10: `HdfsFileClose` always clears the slot's DFS handles and returns it
to the freelist, even when closing the remote handle fails: the error is
raised only after the slot state is cleared and the slot freed (the carried
state of the `.error` outcome is the same fully-cleared state), so the remote
handle can never be closed twice and the slot is never left half-closed; and
the `.error` outcome arises exactly when the slot was open, the close failed,
and `canReportError` was set.  The local path differs: `LocalFileClose` on an
open slot whose descriptor close fails raises the error before freeing, with
the slot still holding its name and descriptor. -/
theorem hdfsFileClose_spec (st : FdSt) (file : Nat) (canRep closeOk : Bool)
    (h0 : 0 < file) (hlen : file < st.cache.length) :
    (∃ s, (HdfsFileClose st file canRep closeOk = .ok s ∨
           HdfsFileClose st file canRep closeOk = .error s) ∧
      (getVfd s file).hFS = false ∧ (getVfd s file).hFile = false ∧
      (getVfd s file).hProtocol = none ∧ (getVfd s file).fileName = none ∧
      (getVfd s file).fdstate = {} ∧ (getVfd s 0).nextFree = file ∧
      ((∃ s2, HdfsFileClose st file canRep closeOk = .error s2) ↔
        (FileIsNotOpen st file = false ∧ closeOk = false ∧ canRep = true))) ∧
    (∀ u : Bool, FileIsNotOpen st file = false →
      ∃ r, LocalFileClose st file false u = .error r ∧
        (getVfd r.1 file).fileName = (getVfd st file).fileName ∧
        (getVfd r.1 file).fd = (getVfd st file).fd) := by
  constructor
  · by_cases hop : FileIsNotOpen st file
    · -- slot not open: failed = false, st1 = st
      have hkey : HdfsFileClose st file canRep closeOk = .ok (FreeVfd st file) := by
        simp [HdfsFileClose, hop]
      have hat := freeVfd_at st file h0 hlen
      have hcl := freeVfd_clears st file h0 hlen
      refine ⟨FreeVfd st file, Or.inl hkey, hcl.1, hcl.2.1, hcl.2.2, hat.1,
        hat.2.1, hat.2.2, ?_⟩
      constructor
      · rintro ⟨s2, hs2⟩
        rw [hkey] at hs2
        exact Except.noConfusion hs2
      · rintro ⟨h1, _, _⟩
        rw [hop] at h1
        exact Bool.noConfusion h1
    · replace hop : FileIsNotOpen st file = false := by simpa using hop
      have hlen1 : file < (updVfd st file (fun w =>
          { w with fd := -1, hFS := false, hFile := false,
                   hProtocol := none })).cache.length := by
        rw [length_updVfd]; exact hlen
      have hat := freeVfd_at _ file h0 hlen1
      have hcl := freeVfd_clears _ file h0 hlen1
      by_cases hfail : closeOk = false ∧ canRep = true
      · have hkey : HdfsFileClose st file canRep closeOk =
            .error (FreeVfd (updVfd st file (fun w =>
              { w with fd := -1, hFS := false, hFile := false,
                       hProtocol := none })) file) := by
          simp [HdfsFileClose, hop, hfail.1, hfail.2]
        refine ⟨_, Or.inr hkey, hcl.1, hcl.2.1, hcl.2.2, hat.1, hat.2.1,
          hat.2.2, ?_⟩
        exact ⟨fun _ => ⟨hop, hfail.1, hfail.2⟩, fun _ => ⟨_, hkey⟩⟩
      · have hkey : HdfsFileClose st file canRep closeOk =
            .ok (FreeVfd (updVfd st file (fun w =>
              { w with fd := -1, hFS := false, hFile := false,
                       hProtocol := none })) file) := by
          rcases Bool.eq_false_or_eq_true closeOk with hc | hc
          · simp [HdfsFileClose, hop, hc]
          · rcases Bool.eq_false_or_eq_true canRep with hr | hr
            · exact absurd ⟨hc, hr⟩ hfail
            · simp [HdfsFileClose, hop, hc, hr]
        refine ⟨_, Or.inl hkey, hcl.1, hcl.2.1, hcl.2.2, hat.1, hat.2.1,
          hat.2.2, ?_⟩
        constructor
        · rintro ⟨s2, hs2⟩
          rw [hkey] at hs2
          exact Except.noConfusion hs2
        · rintro ⟨_, hc, hr⟩
          exact absurd ⟨hc, hr⟩ hfail
  · intro u hop
    have hkey : LocalFileClose st file false u =
        .error (Delete st file, [FdEv.closeFd (getVfd st file).fd]) := by
      simp [LocalFileClose, hop]
    have hfr := delete_frame st file file
    exact ⟨_, hkey, hfr.2.2.2.2.1, hfr.1⟩

theorem hdfsFileClose_witness :
    (∃ s, (HdfsFileClose
        { cache := [{ fd := -1 },
            { fd := -1, hFS := true, hFile := true,
              hProtocol := some "hdfs", fileName := some "hdfs://h:9000/f" }],
          nfile := 0 } 1 true false = .ok s ∨
      HdfsFileClose
        { cache := [{ fd := -1 },
            { fd := -1, hFS := true, hFile := true,
              hProtocol := some "hdfs", fileName := some "hdfs://h:9000/f" }],
          nfile := 0 } 1 true false = .error s) ∧
      (getVfd s 1).hFS = false ∧ (getVfd s 1).hFile = false ∧
      (getVfd s 1).hProtocol = none ∧ (getVfd s 1).fileName = none ∧
      (getVfd s 1).fdstate = {} ∧ (getVfd s 0).nextFree = 1 ∧
      ((∃ s2, HdfsFileClose
          { cache := [{ fd := -1 },
              { fd := -1, hFS := true, hFile := true,
                hProtocol := some "hdfs", fileName := some "hdfs://h:9000/f" }],
            nfile := 0 } 1 true false = .error s2) ↔
        (FileIsNotOpen
            { cache := [{ fd := -1 },
                { fd := -1, hFS := true, hFile := true,
                  hProtocol := some "hdfs", fileName := some "hdfs://h:9000/f" }],
              nfile := 0 } 1 = false ∧ false = false ∧ true = true))) ∧
    (∀ u : Bool, FileIsNotOpen
        { cache := [{ fd := -1 },
            { fd := -1, hFS := true, hFile := true,
              hProtocol := some "hdfs", fileName := some "hdfs://h:9000/f" }],
          nfile := 0 } 1 = false →
      ∃ r, LocalFileClose
          { cache := [{ fd := -1 },
              { fd := -1, hFS := true, hFile := true,
                hProtocol := some "hdfs", fileName := some "hdfs://h:9000/f" }],
            nfile := 0 } 1 false u = .error r ∧
        (getVfd r.1 1).fileName = (getVfd
          { cache := [{ fd := -1 },
              { fd := -1, hFS := true, hFile := true,
                hProtocol := some "hdfs", fileName := some "hdfs://h:9000/f" }],
            nfile := 0 } 1).fileName ∧
        (getVfd r.1 1).fd = (getVfd
          { cache := [{ fd := -1 },
              { fd := -1, hFS := true, hFile := true,
                hProtocol := some "hdfs", fileName := some "hdfs://h:9000/f" }],
            nfile := 0 } 1).fd) :=
  hdfsFileClose_spec _ 1 true false (by decide) (by decide)


/-! ### Claim C3: `ReleaseLruFile` -/

theorem getVfd_nfileSet (st : FdSt) (n x : Nat) :
    getVfd { cache := st.cache, nfile := n } x = getVfd st x := rfl

/-- C3: `ReleaseLruFile` reports "nothing to release" (`false`, state
untouched) exactly when no slot is physically open (`nfile = 0`).  Otherwise
it takes the slot `t` at the least-recent end of the ring
(`VfdCache[0].lruMoreRecently`), saves the position reported by the
slot-appropriate tell call (`lseek(fd,0,SEEK_CUR)` for local slots, the DFS
tell for DFS slots, both modelled by the `tell` oracle) into `seekPos` — a
negative saved position, which under the `lseek`/tell contract
(`-1 ≤ tell`) can only be `-1`, is a fatal invariant violation — closes the
real descriptor or handle, decrements `nfile`, resets `fd` and the DFS
handles to their closed sentinels, unlinks the slot from the ring (the
neighbours `lp` and `mn` are routed around it) and reports `true`; slots
other than `t` and its ring neighbours are untouched. -/
theorem releaseLruFile_spec (st : FdSt) (tell : Int) (closeOk : Bool)
    (t lp mn : Nat)
    (ht : (getVfd st 0).lruMoreRecently = t)
    (hlp : (getVfd st t).lruLessRecently = lp)
    (hmn : (getVfd st t).lruMoreRecently = mn)
    (htell : -1 ≤ tell)
    (ht0 : 0 < t) (htl : t < st.cache.length)
    (hlpt : lp ≠ t) (hmnt : mn ≠ t)
    (hlpl : lp < st.cache.length) (hmnl : mn < st.cache.length) :
    (st.nfile = 0 → ReleaseLruFile st tell closeOk = .ok (false, st)) ∧
    (0 < st.nfile → tell < 0 →
      ∃ s, ReleaseLruFile st tell closeOk = .error s) ∧
    (0 < st.nfile → 0 ≤ tell → closeOk = true →
      ∃ s, ReleaseLruFile st tell closeOk = .ok (true, s) ∧
        s.nfile = st.nfile - 1 ∧
        getVfd s t = { getVfd st t with
          seekPos := tell, fd := -1,
          hFS := false, hFile := false, hProtocol := none } ∧
        (getVfd s lp).lruMoreRecently = mn ∧
        (getVfd s mn).lruLessRecently = lp ∧
        (∀ j, j ≠ t → j ≠ lp → j ≠ mn → getVfd s j = getVfd st j)) := by
  have hlen1 : t < (Delete st t).cache.length := by
    rw [length_Delete]; exact htl
  have hDel_t : getVfd (Delete st t) t = getVfd st t := by
    simp only [Delete]
    rw [hlp, hmn, getVfd_updVfd_ne _ mn t _ hmnt, getVfd_updVfd_ne _ lp t _ hlpt]
  have hDel_lp : (getVfd (Delete st t) lp).lruMoreRecently = mn := by
    simp only [Delete]
    rw [hlp, hmn]
    by_cases hml : mn = lp
    · subst hml
      rw [getVfd_updVfd_self _ mn _ (by rw [length_updVfd]; exact hmnl),
        getVfd_updVfd_self _ mn _ hmnl]
    · rw [getVfd_updVfd_ne _ mn lp _ hml, getVfd_updVfd_self _ lp _ hlpl]
  have hDel_mn : (getVfd (Delete st t) mn).lruLessRecently = lp := by
    simp only [Delete]
    rw [hlp, hmn,
      getVfd_updVfd_self _ mn _ (by rw [length_updVfd]; exact hmnl)]
  have hDel_frame : ∀ j, j ≠ lp → j ≠ mn →
      getVfd (Delete st t) j = getVfd st j := by
    intro j hjlp hjmn
    simp only [Delete]
    rw [hlp, hmn, getVfd_updVfd_ne _ mn j _ (fun h => hjmn h.symm),
      getVfd_updVfd_ne _ lp j _ (fun h => hjlp h.symm)]
  refine ⟨?_, ?_, ?_⟩
  · intro h0
    simp [ReleaseLruFile, h0]
  · intro hpos hneg
    have htm1 : tell = -1 := by omega
    subst htm1
    refine ⟨updVfd (Delete st t) t (fun w => { w with seekPos := -1 }), ?_⟩
    simp [ReleaseLruFile, LruDelete, hpos, ht]
  · intro hpos htell0 hclose
    subst hclose
    have htne : tell ≠ -1 := by omega
    have hkey : ReleaseLruFile st tell true =
        .ok (true, updVfd
          { updVfd (Delete st t) t (fun w => { w with seekPos := tell }) with
            nfile :=
              (updVfd (Delete st t) t
                (fun w => { w with seekPos := tell })).nfile - 1 }
          t (fun w =>
            { w with fd := -1, hFS := false, hFile := false,
                     hProtocol := none })) := by
      simp [ReleaseLruFile, LruDelete, ht, hpos, htne]
    have hlen2 : t < (updVfd (Delete st t) t
        (fun w => { w with seekPos := tell })).cache.length := by
      rw [length_updVfd]; exact hlen1
    have hlen3 : t < ({ updVfd (Delete st t) t
        (fun w => { w with seekPos := tell }) with
        nfile := (updVfd (Delete st t) t
          (fun w => { w with seekPos := tell })).nfile - 1 } : FdSt).cache.length :=
      hlen2
    refine ⟨_, hkey, rfl, ?_, ?_, ?_, ?_⟩
    · rw [getVfd_updVfd_self _ t _ hlen3, getVfd_nfileSet,
        getVfd_updVfd_self _ t _ hlen1, hDel_t]
    · rw [getVfd_updVfd_ne _ t lp _ (fun h => hlpt h.symm), getVfd_nfileSet,
        getVfd_updVfd_ne _ t lp _ (fun h => hlpt h.symm), hDel_lp]
    · rw [getVfd_updVfd_ne _ t mn _ (fun h => hmnt h.symm), getVfd_nfileSet,
        getVfd_updVfd_ne _ t mn _ (fun h => hmnt h.symm), hDel_mn]
    · intro j hjt hjlp hjmn
      rw [getVfd_updVfd_ne _ t j _ (fun h => hjt h.symm), getVfd_nfileSet,
        getVfd_updVfd_ne _ t j _ (fun h => hjt h.symm),
        hDel_frame j hjlp hjmn]

/-- A two-slot state: the anchor and one physically open local slot forming
the ring. -/
def lruStEx : FdSt :=
  { cache := [{ fd := -1, lruMoreRecently := 1, lruLessRecently := 1 },
      { fd := 5, fileName := some "f", lruMoreRecently := 0,
        lruLessRecently := 0 }],
    nfile := 1 }

theorem releaseLruFile_witness :
    ∃ s, ReleaseLruFile lruStEx 7 true = .ok (true, s) ∧
      s.nfile = lruStEx.nfile - 1 ∧
      getVfd s 1 = { getVfd lruStEx 1 with
        seekPos := 7, fd := -1,
        hFS := false, hFile := false, hProtocol := none } ∧
      (getVfd s 0).lruMoreRecently = 0 ∧
      (getVfd s 0).lruLessRecently = 0 ∧
      (∀ j, j ≠ 1 → j ≠ 0 → j ≠ 0 → getVfd s j = getVfd lruStEx j) :=
  (releaseLruFile_spec lruStEx 7 true 1 0 0 rfl rfl rfl (by decide) (by decide)
    (by decide) (by decide) (by decide) (by decide) (by decide)).2.2
    (by decide) (by decide) rfl

/-! ### Claim C4: DFS write opens and the saved reopen flags -/

/-- C4 counterexample: a DFS write open whose flags do not include append is
not rejected — `HdfsPathNameOpenFile` on a fresh table with `O_WRONLY` only
(no `O_APPEND`) succeeds, returns VFD 1 and creates the slot (the flag test
at fd.c line 2441 only selects the replica argument passed to the external
open; nothing rejects the combination). -/
theorem hdfs_nonappend_write_open_succeeds :
    ({ wronly := true } : OFlags).append = false ∧
    ({ wronly := true } : OFlags).wronly = true ∧
    (HdfsPathNameOpenFile initFileAccessSt "hdfs://h:9000/f"
      { wronly := true } 0 ⟨true, true, true, true⟩).1 = 1 ∧
    (getVfd (HdfsPathNameOpenFile initFileAccessSt "hdfs://h:9000/f"
      { wronly := true } 0 ⟨true, true, true, true⟩).2 1).fileName =
      some "hdfs://h:9000/f" :=
  ⟨rfl, rfl, by decide, by decide⟩

/-- C4 (amended): the DFS open path does not reject non-append write opens;
instead, for every DFS VFD that is successfully opened, the saved reopen
flags are `(fileFlags & ~O_CREAT) | O_APPEND` — in particular they always
include append — and the slot records the file name (fd.c lines 2510-2521). -/
theorem hdfsOpen_saved_flags (st : FdSt) (fileName : String) (flags : OFlags)
    (mode : Nat) (o : HdfsOracle)
    (hf : (AllocateVfd st).1 < (AllocateVfd st).2.cache.length)
    (f : Int) (st2 : FdSt)
    (hres : HdfsPathNameOpenFile st fileName flags mode o = (f, st2))
    (hsucc : 0 ≤ f) :
    (getVfd st2 f.toNat).fileFlags =
      { flags with creat := false, append := true } ∧
    (getVfd st2 f.toNat).fileFlags.append = true ∧
    (getVfd st2 f.toNat).fileName = some fileName := by
  by_cases hr : (HdfsBasicOpenFile fileName flags o).1
  · simp only [HdfsPathNameOpenFile, hr, Bool.not_true, Bool.false_eq_true,
      if_false] at hres
    have h1 := congrArg Prod.fst hres
    have h2 := congrArg Prod.snd hres
    simp only at h1 h2
    subst h2
    have hfn : f.toNat = (AllocateVfd st).1 := by
      rw [← h1]; simp
    rw [hfn, getVfd_updVfd_self _ _ _ hf]
    exact ⟨rfl, rfl, rfl⟩
  · replace hr : (HdfsBasicOpenFile fileName flags o).1 = false := by
      simpa using hr
    simp only [HdfsPathNameOpenFile, hr, Bool.not_false, if_true] at hres
    have h1 := congrArg Prod.fst hres
    simp only at h1
    omega

theorem hdfsOpen_saved_flags_witness :
    (getVfd (HdfsPathNameOpenFile initFileAccessSt "hdfs://h:9000/g"
        { wronly := true, creat := true } 0
        ⟨true, true, true, true⟩).2
      ((HdfsPathNameOpenFile initFileAccessSt "hdfs://h:9000/g"
        { wronly := true, creat := true } 0
        ⟨true, true, true, true⟩).1).toNat).fileFlags =
      { ({ wronly := true, creat := true } : OFlags) with
        creat := false, append := true } ∧
    (getVfd (HdfsPathNameOpenFile initFileAccessSt "hdfs://h:9000/g"
        { wronly := true, creat := true } 0
        ⟨true, true, true, true⟩).2
      ((HdfsPathNameOpenFile initFileAccessSt "hdfs://h:9000/g"
        { wronly := true, creat := true } 0
        ⟨true, true, true, true⟩).1).toNat).fileFlags.append = true ∧
    (getVfd (HdfsPathNameOpenFile initFileAccessSt "hdfs://h:9000/g"
        { wronly := true, creat := true } 0
        ⟨true, true, true, true⟩).2
      ((HdfsPathNameOpenFile initFileAccessSt "hdfs://h:9000/g"
        { wronly := true, creat := true } 0
        ⟨true, true, true, true⟩).1).toNat).fileName =
      some "hdfs://h:9000/g" :=
  hdfsOpen_saved_flags initFileAccessSt "hdfs://h:9000/g"
    { wronly := true, creat := true } 0 ⟨true, true, true, true⟩ (by decide)
    _ _ rfl (by decide)

/-! ### Claim C1: the descriptor budget -/

theorem evictLoop_le (m d : Nat) : ∀ n, evictLoop m d n ≤ n := by
  intro n
  induction n with
  | zero => simp [evictLoop]
  | succ n ih =>
    simp only [evictLoop]
    split
    · omega
    · omega

theorem evictLoop_headroom (m d : Nat) :
    ∀ n, evictLoop m d n + d < m ∨ evictLoop m d n = 0 := by
  intro n
  induction n with
  | zero => right; rfl
  | succ n ih =>
    simp only [evictLoop]
    split
    · exact ih
    · left; omega

theorem fdStep_cast {m : Nat} {c c1 c2 : FdCounters} (h : FdStep m c c1)
    (e : c1 = c2) : FdStep m c c2 := e ▸ h

/-- C1 counterexample: with `max_safe_fds = 10`, the counter state
`nfile = 10, numAllocatedDescs = 1` is reachable (open ten local files, then
one `AllocateFile`, which checks only `numAllocatedDescs` against the budget
and does not evict), and it violates
`nfile + numAllocatedDescs ≤ max_safe_fds`. -/
theorem fd_budget_counterexample :
    FdReachable 10 ⟨10, 1⟩ ∧ ¬(10 + 1 ≤ 10) := by
  constructor
  · have s0 : FdReachable 10 ⟨0, 0⟩ := .init
    have s1 : FdReachable 10 ⟨1, 0⟩ :=
      .step s0 (fdStep_cast (.localOpenOk ⟨0, 0⟩ 0) (by decide))
    have s2 : FdReachable 10 ⟨2, 0⟩ :=
      .step s1 (fdStep_cast (.localOpenOk ⟨1, 0⟩ 0) (by decide))
    have s3 : FdReachable 10 ⟨3, 0⟩ :=
      .step s2 (fdStep_cast (.localOpenOk ⟨2, 0⟩ 0) (by decide))
    have s4 : FdReachable 10 ⟨4, 0⟩ :=
      .step s3 (fdStep_cast (.localOpenOk ⟨3, 0⟩ 0) (by decide))
    have s5 : FdReachable 10 ⟨5, 0⟩ :=
      .step s4 (fdStep_cast (.localOpenOk ⟨4, 0⟩ 0) (by decide))
    have s6 : FdReachable 10 ⟨6, 0⟩ :=
      .step s5 (fdStep_cast (.localOpenOk ⟨5, 0⟩ 0) (by decide))
    have s7 : FdReachable 10 ⟨7, 0⟩ :=
      .step s6 (fdStep_cast (.localOpenOk ⟨6, 0⟩ 0) (by decide))
    have s8 : FdReachable 10 ⟨8, 0⟩ :=
      .step s7 (fdStep_cast (.localOpenOk ⟨7, 0⟩ 0) (by decide))
    have s9 : FdReachable 10 ⟨9, 0⟩ :=
      .step s8 (fdStep_cast (.localOpenOk ⟨8, 0⟩ 0) (by decide))
    have s10 : FdReachable 10 ⟨10, 0⟩ :=
      .step s9 (fdStep_cast (.localOpenOk ⟨9, 0⟩ 0) (by decide))
    exact .step s10
      (fdStep_cast (.allocOk ⟨10, 0⟩ 0 (by decide) (by decide)) (by decide))
  · decide

/-- C1 (amended): across every sequence of public operations the code
maintains `nfile ≤ max_safe_fds` and
`numAllocatedDescs ≤ min (max_safe_fds - 1) MAX_ALLOCATED_DESCS`, but not
`nfile + numAllocatedDescs ≤ max_safe_fds`: the sum is only bounded by
`max_safe_fds + min (max_safe_fds - 1) MAX_ALLOCATED_DESCS`, because
`AllocateFile`/`AllocateDir` acquire a descriptor without first evicting from
the LRU ring. -/
theorem fd_budget_inv (m : Nat) (hm : 1 ≤ m) (c : FdCounters)
    (h : FdReachable m c) :
    c.nfile ≤ m ∧ c.numAllocatedDescs < m ∧
    c.numAllocatedDescs ≤ MAX_ALLOCATED_DESCS ∧
    c.nfile + c.numAllocatedDescs ≤ m + min (m - 1) MAX_ALLOCATED_DESCS := by
  induction h with
  | init => exact ⟨Nat.zero_le m, hm, Nat.zero_le _, Nat.zero_le _⟩
  | @step c1 c2 hr hs ih =>
    have hmin : min (m - 1) MAX_ALLOCATED_DESCS = min (m - 1) 32 := rfl
    obtain ⟨ih1, ih2, ih3, _⟩ := ih
    have h32 : MAX_ALLOCATED_DESCS = 32 := rfl
    cases hs with
    | localOpenOk k =>
      have hle := evictLoop_le m c1.numAllocatedDescs c1.nfile
      rcases evictLoop_headroom m c1.numAllocatedDescs c1.nfile with hh | hh <;>
        (refine ⟨?_, ?_, ?_, ?_⟩ <;> dsimp only <;> omega)
    | localOpenFail k =>
      have hle := evictLoop_le m c1.numAllocatedDescs c1.nfile
      refine ⟨?_, ?_, ?_, ?_⟩ <;> dsimp only <;> omega
    | dfsOpen => exact ⟨ih1, ih2, ih3, by omega⟩
    | allocOk k h1 h2 =>
      refine ⟨?_, ?_, ?_, ?_⟩ <;> dsimp only <;> omega
    | allocFail k =>
      refine ⟨?_, ?_, ?_, ?_⟩ <;> dsimp only <;> omega
    | closeFile b hb =>
      refine ⟨?_, ?_, ?_, ?_⟩ <;> dsimp only <;> omega
    | freeDesc =>
      refine ⟨?_, ?_, ?_, ?_⟩ <;> dsimp only <;> omega

theorem fd_budget_inv_witness :
    (⟨10, 1⟩ : FdCounters).nfile ≤ 10 ∧
    (⟨10, 1⟩ : FdCounters).numAllocatedDescs < 10 ∧
    (⟨10, 1⟩ : FdCounters).numAllocatedDescs ≤ MAX_ALLOCATED_DESCS ∧
    (⟨10, 1⟩ : FdCounters).nfile + (⟨10, 1⟩ : FdCounters).numAllocatedDescs ≤
      10 + min (10 - 1) MAX_ALLOCATED_DESCS :=
  fd_budget_inv 10 (by decide) ⟨10, 1⟩
    (.step (.step (.step (.step (.step (.step (.step (.step (.step (.step
      (.step .init
        (fdStep_cast (.localOpenOk ⟨0, 0⟩ 0) (by decide)))
        (fdStep_cast (.localOpenOk ⟨1, 0⟩ 0) (by decide)))
        (fdStep_cast (.localOpenOk ⟨2, 0⟩ 0) (by decide)))
        (fdStep_cast (.localOpenOk ⟨3, 0⟩ 0) (by decide)))
        (fdStep_cast (.localOpenOk ⟨4, 0⟩ 0) (by decide)))
        (fdStep_cast (.localOpenOk ⟨5, 0⟩ 0) (by decide)))
        (fdStep_cast (.localOpenOk ⟨6, 0⟩ 0) (by decide)))
        (fdStep_cast (.localOpenOk ⟨7, 0⟩ 0) (by decide)))
        (fdStep_cast (.localOpenOk ⟨8, 0⟩ 0) (by decide)))
        (fdStep_cast (.localOpenOk ⟨9, 0⟩ 0) (by decide)))
      (fdStep_cast (.allocOk ⟨10, 0⟩ 0 (by decide) (by decide)) (by decide)))

/-! ### Claim C6: sub-transaction end of the allocated-descriptor registry -/

theorem descsCommit (mine parent : Nat) :
    ∀ n i (l : List ADesc), l.length - i ≤ n →
      AtEOSubXactDescs true mine parent i l =
        l.take i ++ (l.drop i).map
          (fun e => if e.create_subid = mine then
            { e with create_subid := parent } else e) := by
  intro n
  induction n with
  | zero =>
    intro i l h
    rw [AtEOSubXactDescs, dif_neg (by omega)]
    have hge : l.length ≤ i := by omega
    simp [List.take_of_length_le hge, List.drop_eq_nil_of_le hge]
  | succ n ih =>
    intro i l h
    rw [AtEOSubXactDescs]
    by_cases hi : i < l.length
    · rw [dif_pos hi]
      by_cases hm : (l.get ⟨i, hi⟩).create_subid = mine
      · simp only [hm, if_pos rfl, if_true]
        have hset : l.set i { l.get ⟨i, hi⟩ with create_subid := parent } =
            l.take i ++ { l.get ⟨i, hi⟩ with create_subid := parent } ::
              l.drop (i + 1) :=
          List.set_eq_take_cons_drop _ hi
        rw [ih (i + 1) _ (by simp; omega)]
        rw [hset]
        have hlt : (l.take i).length = i := by
          simp [List.length_take]; omega
        have htk : (l.take i ++ { l.get ⟨i, hi⟩ with create_subid := parent } ::
            l.drop (i + 1)).take (i + 1) =
            l.take i ++ [{ l.get ⟨i, hi⟩ with create_subid := parent }] := by
          rw [show i + 1 = (l.take i).length + 1 by omega]
          rw [List.take_append_eq_append_take]
          simp
        have hdr : (l.take i ++ { l.get ⟨i, hi⟩ with create_subid := parent } ::
            l.drop (i + 1)).drop (i + 1) = l.drop (i + 1) := by
          rw [show i + 1 = (l.take i).length + 1 by omega]
          rw [List.drop_append_eq_append_drop]
          simp
        rw [htk, hdr]
        rw [List.drop_eq_getElem_cons hi]
        simp only [List.map_cons]
        rw [List.append_assoc]
        congr 1
        simp only [List.singleton_append]
        congr 1
        · show _ = if (l[i]).create_subid = mine then _ else _
          rw [if_pos (by simpa using hm)]
          rfl
      · simp only [hm, if_neg hm, if_false]
        rw [ih (i + 1) l (by omega)]
        rw [List.drop_eq_getElem_cons hi, List.map_cons]
        rw [if_neg (by simpa using hm)]
        rw [← List.take_concat_get' l i hi, List.append_assoc]
        simp only [List.singleton_append]
    · rw [dif_neg hi]
      have hge : l.length ≤ i := by omega
      simp [List.take_of_length_le hge, List.drop_eq_nil_of_le hge]

theorem descsAbort (mine parent : Nat) :
    ∀ n i (l : List ADesc), l.length - i ≤ n →
      (AtEOSubXactDescs false mine parent i l).Perm
        (l.take i ++ (l.drop i).filter (fun e => e.create_subid != mine)) := by
  intro n
  induction n with
  | zero =>
    intro i l h
    rw [AtEOSubXactDescs, dif_neg (by omega)]
    have hge : l.length ≤ i := by omega
    simp [List.take_of_length_le hge, List.drop_eq_nil_of_le hge]
  | succ n ih =>
    intro i l h
    rw [AtEOSubXactDescs]
    by_cases hi : i < l.length
    · rw [dif_pos hi]
      by_cases hm : (l.get ⟨i, hi⟩).create_subid = mine
      · simp only [hm, if_true, Bool.false_eq_true, if_false]
        have hset : l.set i (l.getD (l.length - 1) (l.get ⟨i, hi⟩)) =
            l.take i ++ l.getD (l.length - 1) (l.get ⟨i, hi⟩) :: l.drop (i + 1) :=
          List.set_eq_take_cons_drop _ hi
        have hpe : (fun e => e.create_subid != mine) (l.get ⟨i, hi⟩) = false := by
          have hm2 : (l[i]).create_subid = mine := hm
          simp [hm2]
        have hdropl : l.drop i = l.get ⟨i, hi⟩ :: l.drop (i + 1) :=
          List.drop_eq_getElem_cons hi
        have hlentake : (l.take i).length = i := by
          simp [List.length_take]
          omega
        by_cases hlast : i + 1 < l.length
        · -- the freed entry is not the last one
          have hdne : l.drop (i + 1) ≠ [] := by
            intro hc
            have := congrArg List.length hc
            simp [List.length_drop] at this
            omega
          have hzw : l.getD (l.length - 1) (l.get ⟨i, hi⟩) =
              (l.drop (i + 1)).getLast hdne := by
            rw [List.getD_eq_getElem l _ (by omega : l.length - 1 < l.length),
              List.getLast_eq_getElem, List.getElem_drop]
            exact getElem_congr (by simp [List.length_drop]; omega)
          have hdecomp : l.drop (i + 1) =
              (l.drop (i + 1)).dropLast ++
                [l.getD (l.length - 1) (l.get ⟨i, hi⟩)] := by
            rw [hzw]
            exact (List.dropLast_concat_getLast hdne).symm
          have hl' : (l.set i (l.getD (l.length - 1) (l.get ⟨i, hi⟩))).dropLast =
              l.take i ++ l.getD (l.length - 1) (l.get ⟨i, hi⟩) ::
                (l.drop (i + 1)).dropLast := by
            rw [hset, List.dropLast_append_of_ne_nil _ (by simp),
              List.dropLast_cons_of_ne_nil hdne]
          have hl'len : ((l.set i (l.getD (l.length - 1)
              (l.get ⟨i, hi⟩))).dropLast).length = l.length - 1 := by
            simp [List.length_dropLast, List.length_set]
          have hrec := ih i ((l.set i (l.getD (l.length - 1)
              (l.get ⟨i, hi⟩))).dropLast) (by rw [hl'len]; omega)
          rw [hl', List.take_left' hlentake, List.drop_left' hlentake] at hrec
          rw [hl']
          refine hrec.trans (List.Perm.append_left (l.take i) ?_)
          have h2 : (l.getD (l.length - 1) (l.get ⟨i, hi⟩) ::
              (l.drop (i + 1)).dropLast).Perm (l.drop (i + 1)) := by
            conv_rhs => rw [hdecomp]
            exact (List.perm_append_singleton _ _).symm
          conv_rhs => rw [hdropl, List.filter_cons_of_neg (by simpa using hpe)]
          exact h2.filter _
        · -- the freed entry is the last one
          have hdnil : l.drop (i + 1) = [] :=
            List.drop_eq_nil_of_le (by omega)
          have hl' : (l.set i (l.getD (l.length - 1) (l.get ⟨i, hi⟩))).dropLast =
              l.take i := by
            rw [hset, hdnil]
            simp
          rw [hl']
          have hrec := ih i (l.take i) (by simp [List.length_take])
          rw [List.take_take, Nat.min_self,
            List.drop_eq_nil_of_le (le_of_eq hlentake)] at hrec
          refine hrec.trans ?_
          rw [hdropl, hdnil, List.filter_cons_of_neg (by simpa using hpe)]
      · simp only [hm, if_neg hm]
        have hrec := ih (i + 1) l (by omega)
        refine hrec.trans ?_
        rw [List.drop_eq_getElem_cons hi,
          List.filter_cons_of_pos (by simpa using hm)]
        rw [← List.take_concat_get' l i hi, List.append_assoc]
        simp only [List.singleton_append]
        exact List.Perm.refl _
    · rw [dif_neg hi]
      have hge : l.length ≤ i := by omega
      simp [List.take_of_length_le hge, List.drop_eq_nil_of_le hge]

theorem isLocalFile_congr {a b : Vfd} (h : eqExceptLinks a b) :
    IsLocalFile a = IsLocalFile b := by
  obtain ⟨_, _, _, _, _, _, _, h8, h9, _⟩ := h
  simp [IsLocalFile, h8, h9]

theorem localFileClose_props (st : FdSt) (file : Nat) (u : Bool)
    (h0 : 0 < file) (hlen : file < st.cache.length) :
    ∃ s evs, LocalFileClose st file true u = .ok (s, evs) ∧
      s.cache.length = st.cache.length ∧
      (getVfd s file).fileName = none ∧
      (getVfd s file).fdstate = {} ∧
      (∀ j, j ≠ file → eqExceptLinks (getVfd s j) (getVfd st j)) ∧
      ((getVfd st file).fdstate.temporary = true →
        ∀ nm, (getVfd st file).fileName = some nm →
          FdEv.unlinkCall nm ∈ evs) := by
  by_cases hop : FileIsNotOpen st file
  · by_cases htmp : (getVfd st file).fdstate.temporary = true
    · have hkey : LocalFileClose st file true u =
          .ok (FreeVfd (updVfd st file (fun w =>
                { w with fdstate := { w.fdstate with temporary := false } })) file,
            if u then [FdEv.clearTempBit file,
                FdEv.unlinkCall ((getVfd st file).fileName.getD "")]
            else [FdEv.clearTempBit file,
                FdEv.unlinkCall ((getVfd st file).fileName.getD ""),
                FdEv.unlinkFailLog ((getVfd st file).fileName.getD "")]) := by
        simp only [LocalFileClose, hop, htmp]
        cases u <;> simp [htmp]
      have hat := freeVfd_at
        (updVfd st file (fun w =>
          { w with fdstate := { w.fdstate with temporary := false } })) file h0
        (by rw [length_updVfd]; exact hlen)
      refine ⟨_, _, hkey, ?_, hat.1, hat.2.1, ?_, ?_⟩
      · simp [length_FreeVfd, length_updVfd]
      · intro j hj
        refine eqExceptLinks_trans (freeVfd_frame _ _ _ hj) ?_
        rw [getVfd_updVfd_ne _ file j _ (fun h => hj h.symm)]
        exact eqExceptLinks_refl _
      · intro _ nm hnm
        cases u <;> simp [hnm]
    · have hkey : LocalFileClose st file true u = .ok (FreeVfd st file, []) := by
        simp only [LocalFileClose, hop]
        simp [htmp]
      have hat := freeVfd_at st file h0 hlen
      refine ⟨_, _, hkey, length_FreeVfd st file, hat.1, hat.2.1, ?_, ?_⟩
      · intro j hj
        exact freeVfd_frame _ _ _ hj
      · intro hc
        exact absurd hc htmp
  · replace hop : FileIsNotOpen st file = false := by simpa using hop
    have hlen1 : file < (Delete st file).cache.length := by
      rw [length_Delete]; exact hlen
    have hfr := delete_frame st file file
    have hAv : getVfd (updVfd
        { Delete st file with nfile := (Delete st file).nfile - 1 } file
        (fun w => { w with fd := -1 })) file =
        { getVfd (Delete st file) file with fd := -1 } :=
      getVfd_updVfd_self _ file _ (by simpa using hlen1)
    by_cases htmp : (getVfd st file).fdstate.temporary = true
    · have htmpA : (getVfd (updVfd
          { Delete st file with nfile := (Delete st file).nfile - 1 } file
          (fun w => { w with fd := -1 })) file).fdstate.temporary = true := by
        rw [hAv]
        show (getVfd (Delete st file) file).fdstate.temporary = true
        rw [hfr.2.1]
        exact htmp
      have hnmA : (getVfd (updVfd
          { Delete st file with nfile := (Delete st file).nfile - 1 } file
          (fun w => { w with fd := -1 })) file).fileName =
          (getVfd st file).fileName := by
        rw [hAv]
        show (getVfd (Delete st file) file).fileName = _
        exact hfr.2.2.2.2.1
      have hkey : LocalFileClose st file true u =
          .ok (FreeVfd (updVfd (updVfd
              { Delete st file with nfile := (Delete st file).nfile - 1 } file
              (fun w => { w with fd := -1 })) file (fun w =>
                { w with fdstate := { w.fdstate with temporary := false } })) file,
            if u then
              [FdEv.closeFd (getVfd st file).fd, FdEv.clearTempBit file,
                FdEv.unlinkCall ((getVfd st file).fileName.getD "")]
            else
              [FdEv.closeFd (getVfd st file).fd, FdEv.clearTempBit file,
                FdEv.unlinkCall ((getVfd st file).fileName.getD ""),
                FdEv.unlinkFailLog ((getVfd st file).fileName.getD "")]) := by
        simp only [LocalFileClose, hop, htmpA, hnmA]
        cases u <;> simp [htmpA, hnmA]
      have hat := freeVfd_at
        (updVfd (updVfd
          { Delete st file with nfile := (Delete st file).nfile - 1 } file
          (fun w => { w with fd := -1 })) file (fun w =>
            { w with fdstate := { w.fdstate with temporary := false } })) file h0
        (by rw [length_updVfd, length_updVfd]; exact hlen1)
      refine ⟨_, _, hkey, ?_, hat.1, hat.2.1, ?_, ?_⟩
      · simp [length_FreeVfd, length_updVfd]
        show (Delete st file).cache.length = _
        exact length_Delete st file
      · intro j hj
        refine eqExceptLinks_trans (freeVfd_frame _ _ _ hj) ?_
        rw [getVfd_updVfd_ne _ file j _ (fun h => hj h.symm),
          getVfd_updVfd_ne _ file j _ (fun h => hj h.symm)]
        show eqExceptLinks (getVfd (Delete st file) j) (getVfd st j)
        exact delete_frame st file j
      · intro _ nm hnm
        cases u <;> simp [hnm]
    · replace htmp : (getVfd st file).fdstate.temporary = false := by
        simpa using htmp
      have htmpA : (getVfd (updVfd
          { Delete st file with nfile := (Delete st file).nfile - 1 } file
          (fun w => { w with fd := -1 })) file).fdstate.temporary = false := by
        rw [hAv]
        show (getVfd (Delete st file) file).fdstate.temporary = false
        rw [hfr.2.1]
        exact htmp
      have hkey : LocalFileClose st file true u =
          .ok (FreeVfd (updVfd
              { Delete st file with nfile := (Delete st file).nfile - 1 } file
              (fun w => { w with fd := -1 })) file,
            [FdEv.closeFd (getVfd st file).fd]) := by
        simp only [LocalFileClose, hop, htmpA]
        simp [htmpA]
      have hat := freeVfd_at
        (updVfd { Delete st file with nfile := (Delete st file).nfile - 1 } file
          (fun w => { w with fd := -1 })) file h0
        (by rw [length_updVfd]; exact hlen1)
      refine ⟨_, _, hkey, ?_, hat.1, hat.2.1, ?_, ?_⟩
      · simp [length_FreeVfd, length_updVfd]
        show (Delete st file).cache.length = _
        exact length_Delete st file
      · intro j hj
        refine eqExceptLinks_trans (freeVfd_frame _ _ _ hj) ?_
        rw [getVfd_updVfd_ne _ file j _ (fun h => hj h.symm)]
        show eqExceptLinks (getVfd (Delete st file) j) (getVfd st j)
        exact delete_frame st file j
      · intro hc
        rw [htmp] at hc
        exact Bool.noConfusion hc

theorem fileClose_props (st : FdSt) (file : Nat) (u : Bool)
    (h0 : 0 < file) (hlen : file < st.cache.length) :
    ∃ s evs, FileClose st file true u = .ok (s, evs) ∧
      s.cache.length = st.cache.length ∧
      (getVfd s file).fileName = none ∧
      (getVfd s file).fdstate = {} ∧
      (∀ j, j ≠ file → eqExceptLinks (getVfd s j) (getVfd st j)) ∧
      (IsLocalFile (getVfd st file) = true →
        (getVfd st file).fdstate.temporary = true →
        ∀ nm, (getVfd st file).fileName = some nm →
          FdEv.unlinkCall nm ∈ evs) := by
  by_cases hloc : IsLocalFile (getVfd st file)
  · obtain ⟨s, evs, hkey, hl, hn, hf, hfr, hunl⟩ :=
      localFileClose_props st file u h0 hlen
    refine ⟨s, evs, ?_, hl, hn, hf, hfr, fun _ => hunl⟩
    simp [FileClose, hloc, hkey]
  · replace hloc : IsLocalFile (getVfd st file) = false := by simpa using hloc
    by_cases hop : FileIsNotOpen st file
    · have hkey : HdfsFileClose st file true true = .ok (FreeVfd st file) := by
        simp [HdfsFileClose, hop]
      have hat := freeVfd_at st file h0 hlen
      refine ⟨FreeVfd st file, [], ?_, length_FreeVfd st file, hat.1, hat.2.1,
        ?_, ?_⟩
      · simp [FileClose, hloc, hkey]
      · intro j hj
        exact freeVfd_frame _ _ _ hj
      · intro hc
        rw [hloc] at hc
        exact Bool.noConfusion hc
    · replace hop : FileIsNotOpen st file = false := by simpa using hop
      have hkey : HdfsFileClose st file true true =
          .ok (FreeVfd (updVfd st file (fun w =>
            { w with fd := -1, hFS := false, hFile := false,
                     hProtocol := none })) file) := by
        simp [HdfsFileClose, hop]
      have hat := freeVfd_at
        (updVfd st file (fun w =>
          { w with fd := -1, hFS := false, hFile := false,
                   hProtocol := none })) file h0
        (by rw [length_updVfd]; exact hlen)
      refine ⟨_, [], ?_, ?_, hat.1, hat.2.1, ?_, ?_⟩
      · simp [FileClose, hloc, hkey]
      · simp [length_FreeVfd, length_updVfd]
      · intro j hj
        refine eqExceptLinks_trans (freeVfd_frame _ _ _ hj) ?_
        rw [getVfd_updVfd_ne _ file j _ (fun h => hj h.symm)]
        exact eqExceptLinks_refl _
      · intro hc
        rw [hloc] at hc
        exact Bool.noConfusion hc

theorem atEOSubXactVfds_commit (mine parent : Nat) (co uo : Nat → Bool) :
    ∀ fuel i st acc, st.cache.length ≤ i + fuel →
      ∃ st1, AtEOSubXactVfds true mine parent co uo fuel i st acc =
          .ok (st1, acc) ∧
        st1.cache.length = st.cache.length ∧
        st1.nfile = st.nfile ∧
        ∀ j, getVfd st1 j =
          if i ≤ j ∧ j < st.cache.length ∧
             (getVfd st j).fdstate.closeAtEOXact = true ∧
             (getVfd st j).create_subid = mine
          then { getVfd st j with create_subid := parent }
          else getVfd st j := by
  intro fuel
  induction fuel with
  | zero =>
    intro i st acc h
    refine ⟨st, rfl, rfl, rfl, ?_⟩
    intro j
    rw [if_neg]
    rintro ⟨h1, h2, _⟩
    omega
  | succ fuel ih =>
    intro i st acc h
    by_cases hi : i < st.cache.length
    · by_cases hcond : (getVfd st i).fdstate.closeAtEOXact = true ∧
          (getVfd st i).create_subid = mine
      · have hbool : ((getVfd st i).fdstate.closeAtEOXact &&
            (getVfd st i).create_subid == mine) = true := by
          simp [hcond.1, hcond.2]
        have hlen' : (updVfd st i (fun w =>
            { w with create_subid := parent })).cache.length =
            st.cache.length := length_updVfd st i _
        obtain ⟨st1, hkey, hl, hn, hch⟩ := ih (i + 1)
          (updVfd st i (fun w => { w with create_subid := parent })) acc
          (by rw [hlen']; omega)
        refine ⟨st1, ?_, by rw [hl, hlen'], hn, ?_⟩
        · simp only [AtEOSubXactVfds, if_pos hi, hbool, if_true]
          exact hkey
        · intro j
          by_cases hji : j = i
          · subst hji
            rw [hch j]
            rw [if_neg (by rintro ⟨h1, _⟩; omega),
              if_pos ⟨le_refl j, hi, hcond.1, hcond.2⟩]
            exact getVfd_updVfd_self st j _ hi
          · rw [hch j]
            have hst'j : getVfd (updVfd st i (fun w =>
                { w with create_subid := parent })) j = getVfd st j :=
              getVfd_updVfd_ne st i j _ (fun hh => hji hh.symm)
            rw [hst'j, hlen']
            refine if_congr ⟨?_, ?_⟩ rfl rfl
            · rintro ⟨h1, h2, h3⟩
              exact ⟨by omega, h2, h3⟩
            · rintro ⟨h1, h2, h3⟩
              refine ⟨by omega, h2, h3⟩
      · have hbool : ((getVfd st i).fdstate.closeAtEOXact &&
            (getVfd st i).create_subid == mine) = false := by
          rcases Decidable.em ((getVfd st i).fdstate.closeAtEOXact = true) with hc | hc
          · have : ¬((getVfd st i).create_subid = mine) := fun hm => hcond ⟨hc, hm⟩
            simp [hc, this]
          · simp [Bool.eq_false_iff.mpr hc]
        obtain ⟨st1, hkey, hl, hn, hch⟩ := ih (i + 1) st acc (by omega)
        refine ⟨st1, ?_, hl, hn, ?_⟩
        · simp only [AtEOSubXactVfds, if_pos hi, hbool, Bool.false_eq_true,
            if_false]
          exact hkey
        · intro j
          rw [hch j]
          by_cases hji : j = i
          · subst hji
            rw [if_neg (by rintro ⟨h1, _⟩; omega),
              if_neg (by rintro ⟨_, _, h3, h4⟩; exact hcond ⟨h3, h4⟩)]
          · refine if_congr ⟨?_, ?_⟩ rfl rfl
            · rintro ⟨h1, h2, h3⟩
              exact ⟨by omega, h2, h3⟩
            · rintro ⟨h1, h2, h3⟩
              refine ⟨by omega, h2, h3⟩
    · refine ⟨st, ?_, rfl, rfl, ?_⟩
      · simp only [AtEOSubXactVfds, if_neg hi]
      · intro j
        rw [if_neg]
        rintro ⟨h1, h2, _⟩
        omega

theorem atEOSubXactVfds_abort (mine parent : Nat) (uo : Nat → Bool) :
    ∀ fuel i st acc,
      st.cache.length ≤ i + fuel → 0 < i →
      ∃ st1 evs,
        AtEOSubXactVfds false mine parent (fun _ => true) uo fuel i st acc =
          .ok (st1, acc ++ evs) ∧
        st1.cache.length = st.cache.length ∧
        (∀ j, i ≤ j → j < st.cache.length →
          (getVfd st j).fdstate.closeAtEOXact = true →
          (getVfd st j).create_subid = mine →
          (getVfd st j).fileName.isSome = true →
          (getVfd st1 j).fileName = none ∧ (getVfd st1 j).fdstate = {} ∧
          (IsLocalFile (getVfd st j) = true →
            (getVfd st j).fdstate.temporary = true →
            ∀ nm, (getVfd st j).fileName = some nm →
              FdEv.unlinkCall nm ∈ evs)) ∧
        (∀ j, (j < i ∨ st.cache.length ≤ j ∨
            ¬((getVfd st j).fdstate.closeAtEOXact = true ∧
              (getVfd st j).create_subid = mine ∧
              (getVfd st j).fileName.isSome = true)) →
          eqExceptLinks (getVfd st1 j) (getVfd st j)) := by
  intro fuel
  induction fuel with
  | zero =>
    intro i st acc h hpos
    refine ⟨st, [], by rw [List.append_nil]; rfl, rfl, ?_, ?_⟩
    · intro j hj1 hj2
      omega
    · intro j _
      exact eqExceptLinks_refl _
  | succ fuel ih =>
    intro i st acc h hpos
    by_cases hi : i < st.cache.length
    · by_cases hcond : (getVfd st i).fdstate.closeAtEOXact = true ∧
          (getVfd st i).create_subid = mine
      · have hbool : ((getVfd st i).fdstate.closeAtEOXact &&
            (getVfd st i).create_subid == mine) = true := by
          simp [hcond.1, hcond.2]
        by_cases hsome : (getVfd st i).fileName.isSome = true
        · -- the slot is closed through FileClose
          obtain ⟨s2, evs2, hkey2, hl2, hnm2, hfs2, hfr2, hunl2⟩ :=
            fileClose_props st i (uo i) hpos hi
          obtain ⟨st1, evs3, heq, hlen1, hproc, hframe⟩ :=
            ih (i + 1) s2 (acc ++ evs2) (by rw [hl2]; omega) (by omega)
          refine ⟨st1, evs2 ++ evs3, ?_, by rw [hlen1, hl2], ?_, ?_⟩
          · simp only [AtEOSubXactVfds, if_pos hi, hbool, if_true,
              Bool.false_eq_true, if_false, hsome, hkey2]
            rw [heq, List.append_assoc]
          · intro j hj1 hj2 hflag hsub hsm
            by_cases hji : j = i
            · subst hji
              have hfj := hframe j (Or.inl (by omega))
              refine ⟨hfj.2.2.2.2.1.trans hnm2, hfj.2.1.trans hfs2, ?_⟩
              intro hloc htmp nm hnm
              exact List.mem_append.mpr (Or.inl (hunl2 hloc htmp nm hnm))
            · have hfj2 := hfr2 j hji
              have hflag2 : (getVfd s2 j).fdstate.closeAtEOXact = true := by
                rw [hfj2.2.1]; exact hflag
              have hsub2 : (getVfd s2 j).create_subid = mine := by
                rw [hfj2.2.2.1]; exact hsub
              have hsm2 : (getVfd s2 j).fileName.isSome = true := by
                rw [hfj2.2.2.2.2.1]; exact hsm
              obtain ⟨hn1, hs1, hu1⟩ := hproc j (by omega) (by rw [hl2]; omega)
                hflag2 hsub2 hsm2
              refine ⟨hn1, hs1, ?_⟩
              intro hloc htmp nm hnm
              have hloc2 : IsLocalFile (getVfd s2 j) = true := by
                rw [isLocalFile_congr hfj2]; exact hloc
              have htmp2 : (getVfd s2 j).fdstate.temporary = true := by
                rw [hfj2.2.1]; exact htmp
              have hnm2' : (getVfd s2 j).fileName = some nm := by
                rw [hfj2.2.2.2.2.1]; exact hnm
              exact List.mem_append.mpr (Or.inr (hu1 hloc2 htmp2 nm hnm2'))
          · intro j hdisj
            by_cases hji : j = i
            · subst hji
              rcases hdisj with hd | hd | hd
              · omega
              · omega
              · exact absurd ⟨hcond.1, hcond.2, hsome⟩ hd
            · have hfj2 := hfr2 j hji
              have hd2 : j < i + 1 ∨ s2.cache.length ≤ j ∨
                  ¬((getVfd s2 j).fdstate.closeAtEOXact = true ∧
                    (getVfd s2 j).create_subid = mine ∧
                    (getVfd s2 j).fileName.isSome = true) := by
                rcases hdisj with hd | hd | hd
                · exact Or.inl (by omega)
                · exact Or.inr (Or.inl (by rw [hl2]; omega))
                · refine Or.inr (Or.inr ?_)
                  rintro ⟨hb1, hb2, hb3⟩
                  exact hd ⟨by rw [← hfj2.2.1]; exact hb1,
                    by rw [← hfj2.2.2.1]; exact hb2,
                    by rw [← hfj2.2.2.2.2.1]; exact hb3⟩
              exact eqExceptLinks_trans (hframe j hd2) hfj2
        · replace hsome : (getVfd st i).fileName.isSome = false := by
            simpa using hsome
          obtain ⟨st1, evs3, heq, hlen1, hproc, hframe⟩ :=
            ih (i + 1) st acc (by omega) (by omega)
          refine ⟨st1, evs3, ?_, hlen1, ?_, ?_⟩
          · simp only [AtEOSubXactVfds, if_pos hi, hbool, if_true,
              Bool.false_eq_true, if_false, hsome]
            exact heq
          · intro j hj1 hj2 hflag hsub hsm
            by_cases hji : j = i
            · subst hji
              rw [hsome] at hsm
              exact absurd hsm (by simp)
            · exact hproc j (by omega) hj2 hflag hsub hsm
          · intro j hdisj
            refine hframe j ?_
            rcases hdisj with hd | hd | hd
            · exact Or.inl (by omega)
            · exact Or.inr (Or.inl hd)
            · by_cases hji : j = i
              · exact Or.inl (by omega)
              · exact Or.inr (Or.inr hd)
      · have hbool : ((getVfd st i).fdstate.closeAtEOXact &&
            (getVfd st i).create_subid == mine) = false := by
          rcases Decidable.em ((getVfd st i).fdstate.closeAtEOXact = true) with hc | hc
          · have : ¬((getVfd st i).create_subid = mine) := fun hm => hcond ⟨hc, hm⟩
            simp [hc, this]
          · simp [Bool.eq_false_iff.mpr hc]
        obtain ⟨st1, evs3, heq, hlen1, hproc, hframe⟩ :=
          ih (i + 1) st acc (by omega) (by omega)
        refine ⟨st1, evs3, ?_, hlen1, ?_, ?_⟩
        · simp only [AtEOSubXactVfds, if_pos hi, hbool, Bool.false_eq_true,
            if_false]
          exact heq
        · intro j hj1 hj2 hflag hsub hsm
          by_cases hji : j = i
          · subst hji
            exact absurd ⟨hflag, hsub⟩ hcond
          · exact hproc j (by omega) hj2 hflag hsub hsm
        · intro j hdisj
          refine hframe j ?_
          rcases hdisj with hd | hd | hd
          · exact Or.inl (by omega)
          · exact Or.inr (Or.inl hd)
          · by_cases hji : j = i
            · exact Or.inl (by omega)
            · exact Or.inr (Or.inr hd)
    · refine ⟨st, [], ?_, rfl, ?_, ?_⟩
      · simp only [AtEOSubXactVfds, if_neg hi]
        rw [List.append_nil]
      · intro j hj1 hj2
        omega
      · intro j _
        exact eqExceptLinks_refl _
/-- Top-level `AtEOSubXact_Files` (fd.c lines 1905-1942): first the VFD scan
over slots `1 .. SizeVfdCache-1`, then the allocated-descriptor registry walk.
An `elog(ERROR)` escaping a `FileClose` in the VFD scan propagates and the
registry walk is skipped. -/
def AtEOSubXact_Files (isCommit : Bool) (mySubid parentSubid : Nat)
    (closeOk unlinkOk : Nat → Bool) (st : FdSt) (descs : List ADesc) :
    Except (FdSt × List FdEv) (FdSt × List FdEv × List ADesc) :=
  match AtEOSubXactVfds isCommit mySubid parentSubid closeOk unlinkOk
      st.cache.length 1 st [] with
  | .error r => .error r
  | .ok r =>
    .ok (r.1, r.2, AtEOSubXactDescs isCommit mySubid parentSubid 0 descs)

/-- Claim C6: `AtEOSubXact_Files(commit, mine, parent)`.  On commit, every VFD
slot (indices `1 .. SizeVfdCache-1`) whose `FD_CLOSE_AT_EOXACT` bit is set and
whose `create_subid` equals `mine` has its `create_subid` reassigned to
`parent` and is otherwise unchanged, and every other slot is unchanged;
likewise every matching allocated-descriptor registry entry is reassigned to
the parent and the others are untouched.  On abort, every matching open slot
is closed — its name and state bits are cleared, and when the slot is a local
temporary file the underlying file is unlinked (an `unlinkCall` event is
emitted) — every non-matching slot is unchanged except for its ring/freelist
link fields, and the surviving registry is, up to the order scrambling of the
`FreeDesc` move-last-into-hole compaction, exactly the entries whose
`create_subid` differs from `mine`. -/
theorem atEOSubXact_spec (mine parent : Nat) (uo : Nat → Bool)
    (st : FdSt) (descs : List ADesc) :
    (∃ st1,
      AtEOSubXact_Files true mine parent (fun _ => true) uo st descs =
        .ok (st1, [], descs.map (fun e =>
          if e.create_subid = mine then { e with create_subid := parent }
          else e)) ∧
      st1.cache.length = st.cache.length ∧ st1.nfile = st.nfile ∧
      ∀ j, getVfd st1 j =
        if 1 ≤ j ∧ j < st.cache.length ∧
           (getVfd st j).fdstate.closeAtEOXact = true ∧
           (getVfd st j).create_subid = mine
        then { getVfd st j with create_subid := parent }
        else getVfd st j) ∧
    (∃ st1 evs ds,
      AtEOSubXact_Files false mine parent (fun _ => true) uo st descs =
        .ok (st1, evs, ds) ∧
      ds.Perm (descs.filter (fun e => e.create_subid != mine)) ∧
      st1.cache.length = st.cache.length ∧
      (∀ j, 1 ≤ j → j < st.cache.length →
        (getVfd st j).fdstate.closeAtEOXact = true →
        (getVfd st j).create_subid = mine →
        (getVfd st j).fileName.isSome = true →
        (getVfd st1 j).fileName = none ∧ (getVfd st1 j).fdstate = {} ∧
        (IsLocalFile (getVfd st j) = true →
          (getVfd st j).fdstate.temporary = true →
          ∀ nm, (getVfd st j).fileName = some nm →
            FdEv.unlinkCall nm ∈ evs)) ∧
      (∀ j, (j < 1 ∨ st.cache.length ≤ j ∨
          ¬((getVfd st j).fdstate.closeAtEOXact = true ∧
            (getVfd st j).create_subid = mine ∧
            (getVfd st j).fileName.isSome = true)) →
        eqExceptLinks (getVfd st1 j) (getVfd st j))) := by
  constructor
  · obtain ⟨st1, hkey, hl, hn, hch⟩ :=
      atEOSubXactVfds_commit mine parent (fun _ => true) uo st.cache.length 1
        st [] (by omega)
    refine ⟨st1, ?_, hl, hn, hch⟩
    simp only [AtEOSubXact_Files, hkey]
    rw [descsCommit mine parent descs.length 0 descs (by omega)]
    simp
  · obtain ⟨st1, evs, hkey, hl, hproc, hframe⟩ :=
      atEOSubXactVfds_abort mine parent uo st.cache.length 1 st []
        (by omega) (by omega)
    refine ⟨st1, evs, AtEOSubXactDescs false mine parent 0 descs, ?_, ?_, hl,
      hproc, hframe⟩
    · simp only [AtEOSubXact_Files, hkey, List.nil_append]
    · have hp := descsAbort mine parent descs.length 0 descs (by omega)
      simpa using hp
